import Mathlib

/-!
Investment-tracker: verification of the portfolio / quote-sync core

A shallow embedding of the portfolio valuation and quote-synchronization
pipeline of the investment-tracker web application, together with theorems
settling the specified properties.

Numeric values are modelled as `ℚ` (the database columns are exact
`numeric` values and every division in the source is guarded).
Calendar days are modelled as `ℕ` (ISO date strings compare
chronologically, so only their order matters).
-/

namespace InvTracker

/-- A transaction row (`src/db/schema.ts`, table `transactions`):
one buy/sell event for one asset.  `type` is `"buy"` or `"sell"`. -/
structure Txn where
  assetId : String
  type : String
  quantity : ℚ
  unitPrice : ℚ
  fee : ℚ
deriving DecidableEq

/-- An asset row (`src/db/schema.ts`, table `assets`). -/
structure Asset where
  id : String
  ticker : String
  name : String
  type : String
  currency : String
  yahooTicker : Option String
  coingeckoId : Option String
deriving DecidableEq

/-- A cached quote row (`src/db/schema.ts`, table `quotes`):
one price for one asset on one calendar day. -/
structure QuoteRow where
  assetId : String
  date : ℕ
  price : ℚ
deriving DecidableEq

/-- A stored FX-rate row (`src/db/schema.ts`, table `dollar_rates`). -/
structure FxRow where
  date : ℕ
  type : String
  buyPrice : ℚ
  sellPrice : ℚ
deriving DecidableEq

/-! ## Holdings aggregation (`src/app/api/portfolio/route.ts`, lines 30–58)

The SQL groups the transactions of the user by `asset_id` and computes
a signed quantity sum (buys positive, sells negative), a buy-only quantity
sum, and a buy-only quantity-times-unit-price sum, keeping only groups whose signed quantity sum is strictly positive. -/

/-- Net signed quantity of one asset over a transaction list
(the `quantity` aggregate of the SQL query). -/
def netQuantity (txs : List Txn) (aid : String) : ℚ :=
  ((txs.filter (fun t => t.assetId = aid)).map
    (fun t => if t.type = "buy" then t.quantity else -t.quantity)).sum

/-- Total bought quantity of one asset (the `totalBought` aggregate). -/
def totalBought (txs : List Txn) (aid : String) : ℚ :=
  ((txs.filter (fun t => t.assetId = aid)).map
    (fun t => if t.type = "buy" then t.quantity else 0)).sum

/-- Total cost of the buys of one asset, fees excluded
(the `totalCost` aggregate). -/
def totalCostOfBuys (txs : List Txn) (aid : String) : ℚ :=
  ((txs.filter (fun t => t.assetId = aid)).map
    (fun t => if t.type = "buy" then t.quantity * t.unitPrice else 0)).sum

/-- One group of the `GROUP BY asset_id` query. -/
structure HoldingAgg where
  assetId : String
  quantity : ℚ
  totalBought : ℚ
  totalCost : ℚ
deriving DecidableEq

/-- The grouped-and-filtered holdings query: one aggregate row per distinct
asset of the transaction list, restricted by the `HAVING` clause to groups
with strictly positive net quantity. -/
def holdingsAgg (txs : List Txn) : List HoldingAgg :=
  ((txs.map (·.assetId)).dedup).filterMap (fun aid =>
    if 0 < netQuantity txs aid then
      some ⟨aid, netQuantity txs aid, totalBought txs aid, totalCostOfBuys txs aid⟩
    else none)

/-- The computation `avgPrice = totalBought > 0 ? totalCost / totalBought : 0`
(`src/app/api/portfolio/route.ts`, line 146). -/
def avgPriceOf (totalBought totalCost : ℚ) : ℚ :=
  if 0 < totalBought then totalCost / totalBought else 0

/-- C1: an asset appears in the holdings aggregate iff its net quantity is
strictly positive. -/
theorem holdings_iff_net_positive (txs : List Txn) (aid : String) :
    (∃ h ∈ holdingsAgg txs, h.assetId = aid) ↔ 0 < netQuantity txs aid := by
  constructor
  · rintro ⟨h, hmem, rfl⟩
    obtain ⟨a, _, hf⟩ := List.mem_filterMap.mp hmem
    by_cases hpos : 0 < netQuantity txs a
    · simp only [hpos, if_pos] at hf
      cases hf
      simpa using hpos
    · simp [hpos] at hf
  · intro hpos
    refine ⟨⟨aid, netQuantity txs aid, totalBought txs aid, totalCostOfBuys txs aid⟩,
      ?_, rfl⟩
    apply List.mem_filterMap.mpr
    refine ⟨aid, ?_, by simp [hpos]⟩
    apply List.mem_dedup.mpr
    have hex : ∃ t ∈ txs, t.assetId = aid := by
      by_contra hno
      push_neg at hno
      have hnil : txs.filter (fun t => t.assetId = aid) = [] := by
        apply List.filter_eq_nil_iff.mpr
        intro t ht
        simpa using hno t ht
      have h0 : netQuantity txs aid = 0 := by
        simp [netQuantity, hnil]
      rw [h0] at hpos
      exact absurd hpos (lt_irrefl 0)
    obtain ⟨t, ht, hta⟩ := hex
    exact List.mem_map.mpr ⟨t, ht, hta⟩

/-! ### Cost-basis arithmetic (claim C2) -/

/-- In a list of non-negative rationals summing to zero, every entry is zero. -/
lemma sum_nonneg_eq_zero {l : List ℚ} (h : ∀ x ∈ l, 0 ≤ x) (hs : l.sum = 0) :
    ∀ x ∈ l, x = 0 := by
  induction l with
  | nil => intro x hx; cases hx
  | cons a l ih =>
    have hta : 0 ≤ a := h a (List.mem_cons_self a l)
    have htl : 0 ≤ l.sum := List.sum_nonneg (fun x hx => h x (List.mem_cons_of_mem a hx))
    have hsum : a + l.sum = 0 := by simpa using hs
    have ha0 : a = 0 := le_antisymm (by linarith) hta
    have hl0 : l.sum = 0 := by linarith
    intro x hx
    rcases List.mem_cons.mp hx with rfl | hx
    · exact ha0
    · exact ih (fun y hy => h y (List.mem_cons_of_mem a hy)) hl0 x hx

/-- A list of non-negative rationals with one strictly positive member has a
strictly positive sum. -/
lemma sum_pos_of_mem {l : List ℚ} (h : ∀ x ∈ l, 0 ≤ x) {x : ℚ}
    (hx : x ∈ l) (hxpos : 0 < x) : 0 < l.sum := by
  induction l with
  | nil => cases hx
  | cons a l ih =>
    have htl : 0 ≤ l.sum := List.sum_nonneg (fun y hy => h y (List.mem_cons_of_mem a hy))
    have hta : 0 ≤ a := h a (List.mem_cons_self a l)
    rcases List.mem_cons.mp hx with rfl | hx
    · simpa using add_pos_of_pos_of_nonneg hxpos htl
    · have := ih (fun y hy => h y (List.mem_cons_of_mem a hy)) hx
      simpa using add_pos_of_nonneg_of_pos hta this

lemma totalBought_nonneg (txs : List Txn) (aid : String)
    (hpos : ∀ t ∈ txs, 0 < t.quantity) : 0 ≤ totalBought txs aid := by
  apply List.sum_nonneg
  intro x hx
  obtain ⟨t, ht, rfl⟩ := List.mem_map.mp hx
  have := hpos t (List.mem_of_mem_filter ht)
  by_cases hb : t.type = "buy"
  · simp [hb]
    linarith
  · simp [hb]

lemma totalCost_nonneg (txs : List Txn) (aid : String)
    (hpos : ∀ t ∈ txs, 0 < t.quantity ∧ 0 < t.unitPrice) :
    0 ≤ totalCostOfBuys txs aid := by
  apply List.sum_nonneg
  intro x hx
  obtain ⟨t, ht, rfl⟩ := List.mem_map.mp hx
  have := hpos t (List.mem_of_mem_filter ht)
  by_cases hb : t.type = "buy" <;> simp [hb]
  exact le_of_lt (mul_pos this.1 this.2)

/-- If some buy exists in the group, the total bought quantity is positive,
and conversely. -/
lemma totalBought_pos_iff (txs : List Txn) (aid : String)
    (hpos : ∀ t ∈ txs, 0 < t.quantity) :
    0 < totalBought txs aid ↔
      ∃ t ∈ txs, t.assetId = aid ∧ t.type = "buy" := by
  constructor
  · intro h
    by_contra hno
    push_neg at hno
    have hz : totalBought txs aid = 0 := by
      apply List.sum_eq_zero
      intro x hx
      obtain ⟨t, ht, rfl⟩ := List.mem_map.mp hx
      have htmem := List.mem_of_mem_filter ht
      have hta : t.assetId = aid := by
        have := List.of_mem_filter ht
        simpa using this
      have : t.type ≠ "buy" := hno t htmem hta
      simp [this]
    rw [hz] at h
    exact absurd h (lt_irrefl 0)
  · rintro ⟨t, ht, hta, hbuy⟩
    have htf : t ∈ txs.filter (fun t => t.assetId = aid) :=
      List.mem_filter.mpr ⟨ht, by simpa using hta⟩
    apply sum_pos_of_mem
    · intro x hx
      obtain ⟨u, hu, rfl⟩ := List.mem_map.mp hx
      have := hpos u (List.mem_of_mem_filter hu)
      by_cases hb : u.type = "buy"
      · simp [hb]
        linarith
      · simp [hb]
    · exact List.mem_map.mpr ⟨t, htf, rfl⟩
    · simpa [hbuy] using hpos t ht

/-- A buy in the group forces a positive total cost. -/
lemma totalCost_pos (txs : List Txn) (aid : String)
    (hpos : ∀ t ∈ txs, 0 < t.quantity ∧ 0 < t.unitPrice)
    {t : Txn} (ht : t ∈ txs) (hta : t.assetId = aid) (hbuy : t.type = "buy") :
    0 < totalCostOfBuys txs aid := by
  have htf : t ∈ txs.filter (fun t => t.assetId = aid) :=
    List.mem_filter.mpr ⟨ht, by simpa using hta⟩
  apply sum_pos_of_mem
  · intro x hx
    obtain ⟨u, hu, rfl⟩ := List.mem_map.mp hx
    have := hpos u (List.mem_of_mem_filter hu)
    by_cases hb : u.type = "buy" <;> simp [hb]
    exact le_of_lt (mul_pos this.1 this.2)
  · exact List.mem_map.mpr ⟨t, htf, rfl⟩
  · have := hpos t ht
    simpa [hbuy] using mul_pos this.1 this.2

/-- The holdings aggregation reads only `assetId`, `type`, `quantity` and
`unitPrice`; rewriting the fee of every transaction leaves it unchanged. -/
lemma holdingsAgg_map_fee (txs : List Txn) (ff : Txn → ℚ) :
    holdingsAgg (txs.map (fun t => { t with fee := ff t })) = holdingsAgg txs := by
  have hfilter : ∀ aid : String,
      (txs.map (fun t => { t with fee := ff t })).filter (fun t => t.assetId = aid)
        = (txs.filter (fun t => t.assetId = aid)).map (fun t => { t with fee := ff t }) := by
    intro aid
    induction txs with
    | nil => rfl
    | cons a l ih =>
      by_cases h : a.assetId = aid <;>
        simp [List.filter_cons, h, ih]
  have hnet : ∀ aid, netQuantity (txs.map (fun t => { t with fee := ff t })) aid
      = netQuantity txs aid := by
    intro aid
    simp only [netQuantity, hfilter, List.map_map]
    rfl
  have htb : ∀ aid, totalBought (txs.map (fun t => { t with fee := ff t })) aid
      = totalBought txs aid := by
    intro aid
    simp only [totalBought, hfilter, List.map_map]
    rfl
  have htc : ∀ aid, totalCostOfBuys (txs.map (fun t => { t with fee := ff t })) aid
      = totalCostOfBuys txs aid := by
    intro aid
    simp only [totalCostOfBuys, hfilter, List.map_map]
    rfl
  have hids : (txs.map (fun t => { t with fee := ff t })).map (·.assetId)
      = txs.map (·.assetId) := by
    simp [List.map_map]
  unfold holdingsAgg
  rw [hids]
  apply List.filterMap_congr
  intro aid _
  rw [hnet, htb, htc]

/-- C2: for every aggregated holding, average price times total bought equals
the total cost of the buys exactly; the average price is zero exactly when
nothing was bought (so the division is always guarded); and fees never enter
the computation. -/
theorem avg_price_times_bought_eq_cost (txs : List Txn)
    (hpos : ∀ t ∈ txs, 0 < t.quantity ∧ 0 < t.unitPrice) :
    (∀ h ∈ holdingsAgg txs,
        avgPriceOf h.totalBought h.totalCost * h.totalBought = h.totalCost
        ∧ (avgPriceOf h.totalBought h.totalCost = 0 ↔ h.totalBought = 0))
    ∧ (∀ ff : Txn → ℚ,
        holdingsAgg (txs.map (fun t => { t with fee := ff t })) = holdingsAgg txs) := by
  constructor
  · intro h hmem
    obtain ⟨aid, _, hf⟩ := List.mem_filterMap.mp hmem
    by_cases hq : 0 < netQuantity txs aid
    · simp only [hq, if_pos] at hf
      cases hf
      simp only
      have hq1 : ∀ t ∈ txs, 0 < t.quantity := fun t ht => (hpos t ht).1
      rcases lt_or_eq_of_le (totalBought_nonneg txs aid hq1) with htb | htb
      · constructor
        · simp only [avgPriceOf, htb, if_pos]
          field_simp
        · obtain ⟨t, ht, hta, hbuy⟩ := (totalBought_pos_iff txs aid hq1).mp htb
          have hc := totalCost_pos txs aid hpos ht hta hbuy
          have havg : 0 < totalCostOfBuys txs aid / totalBought txs aid :=
            div_pos hc htb
          simp only [avgPriceOf, htb, if_pos]
          constructor
          · intro h0; rw [h0] at havg; exact absurd havg (lt_irrefl 0)
          · intro h0; rw [h0] at htb; exact absurd htb (lt_irrefl 0)
      · have htb' : totalBought txs aid = 0 := htb.symm
        have hnobuy : ∀ t ∈ txs.filter (fun t => t.assetId = aid),
            t.type ≠ "buy" := by
          intro t ht hbuy
          have hta : t.assetId = aid := by
            have := List.of_mem_filter ht
            simpa using this
          have := (totalBought_pos_iff txs aid hq1).mpr
            ⟨t, List.mem_of_mem_filter ht, hta, hbuy⟩
          rw [htb'] at this
          exact absurd this (lt_irrefl 0)
        have htc : totalCostOfBuys txs aid = 0 := by
          apply List.sum_eq_zero
          intro x hx
          obtain ⟨t, ht, rfl⟩ := List.mem_map.mp hx
          simp [hnobuy t ht]
        simp [avgPriceOf, htb', htc]
    · simp [hq] at hf
  · exact holdingsAgg_map_fee txs

/-! ### FX-rate resolution (`src/app/api/portfolio/route.ts`, lines 84–89 and
119–132)

The route loads `dollar_rates` ordered by date descending with `limit(10)`,
folds the rows into `ratesByType` keeping the first truthy sell price per
type, and resolves `oficial || mep || 1`, `mep || 1`, `blue || 1`. -/

/-- First element of maximal date, via a left fold (used both for the
`DISTINCT ON … ORDER BY date DESC` quote lookup and as the spec-side notion
of "most recent row"). -/
def maxByDate {α : Type} (dateOf : α → ℕ) (l : List α) : Option α :=
  l.foldl (fun acc q => match acc with
    | none => some q
    | some m => if dateOf m < dateOf q then some q else some m) none

lemma maxByDate_go {α : Type} (dateOf : α → ℕ) (l : List α) (m : α) :
    ∃ m', (l.foldl (fun acc q => match acc with
        | none => some q
        | some m => if dateOf m < dateOf q then some q else some m) (some m)) = some m'
      ∧ (m' = m ∨ m' ∈ l) ∧ dateOf m ≤ dateOf m' ∧ ∀ y ∈ l, dateOf y ≤ dateOf m' := by
  induction l generalizing m with
  | nil => exact ⟨m, rfl, Or.inl rfl, le_refl _, by simp⟩
  | cons a l ih =>
    by_cases h : dateOf m < dateOf a
    · obtain ⟨m', h1, h2, h3, h4⟩ := ih a
      refine ⟨m', by simpa [h] using h1, ?_, le_trans (le_of_lt h) h3, ?_⟩
      · rcases h2 with rfl | h2
        · exact Or.inr (List.mem_cons_self _ _)
        · exact Or.inr (List.mem_cons_of_mem _ h2)
      · intro y hy
        rcases List.mem_cons.mp hy with rfl | hy
        · exact h3
        · exact h4 y hy
    · obtain ⟨m', h1, h2, h3, h4⟩ := ih m
      refine ⟨m', by simpa [h] using h1, ?_, h3, ?_⟩
      · rcases h2 with rfl | h2
        · exact Or.inl rfl
        · exact Or.inr (List.mem_cons_of_mem _ h2)
      · intro y hy
        rcases List.mem_cons.mp hy with rfl | hy
        · exact le_trans (not_lt.mp h) h3
        · exact h4 y hy

lemma maxByDate_spec {α : Type} (dateOf : α → ℕ) (l : List α) :
    (l = [] ∧ maxByDate dateOf l = none) ∨
    ∃ m, maxByDate dateOf l = some m ∧ m ∈ l ∧ ∀ y ∈ l, dateOf y ≤ dateOf m := by
  cases l with
  | nil => exact Or.inl ⟨rfl, rfl⟩
  | cons a l =>
    obtain ⟨m', h1, h2, h3, h4⟩ := maxByDate_go dateOf l a
    refine Or.inr ⟨m', h1, ?_, ?_⟩
    · rcases h2 with rfl | h2
      · exact List.mem_cons_self _ _
      · exact List.mem_cons_of_mem _ h2
    · intro y hy
      rcases List.mem_cons.mp hy with rfl | hy
      · exact h3
      · exact h4 y hy

/-- Descending-date comparator embedding `ORDER BY date DESC`. -/
def fxDateDesc (a b : FxRow) : Prop := b.date ≤ a.date

instance : DecidableRel fxDateDesc := fun a b => Nat.decLe b.date a.date

instance : IsTotal FxRow fxDateDesc := ⟨fun a b => le_total b.date a.date⟩

instance : IsTrans FxRow fxDateDesc := ⟨fun _ _ _ h1 h2 => le_trans h2 h1⟩

/-- The FX query of the portfolio route: all stored rates ordered by date
descending, limited to the 10 most recent rows. -/
def recentRates (rows : List FxRow) : List FxRow :=
  (List.insertionSort fxDateDesc rows).take 10

/-- The `ratesByType` accumulation (lines 123–128): iterating the query rows,
the slot of a type is (re)assigned while its current value is falsy, so the
recorded value is the first non-zero sell price in query order, and `0` when
the type occurs only with zero sell prices. -/
def ratesByType (l : List FxRow) (t : String) : Option ℚ :=
  match l.find? (fun r => decide (r.type = t ∧ r.sellPrice ≠ 0)) with
  | some r => some r.sellPrice
  | none => if l.any (fun r => decide (r.type = t)) then some 0 else none

/-- JS `x || d` for an optionally-present number: `0` is falsy. -/
def jsOr (x : Option ℚ) (d : ℚ) : ℚ :=
  match x with
  | some v => if v = 0 then d else v
  | none => d

/-- The resolution `dollarOficial = ratesByType["oficial"] || ratesByType["mep"] || 1`
(line 130). -/
def dollarOficialOf (rows : List FxRow) : ℚ :=
  jsOr (ratesByType (recentRates rows) "oficial")
    (jsOr (ratesByType (recentRates rows) "mep") 1)

/-- The resolution `dollarMep = ratesByType["mep"] || 1` (line 131). -/
def dollarMepOf (rows : List FxRow) : ℚ :=
  jsOr (ratesByType (recentRates rows) "mep") 1

/-- The resolution `dollarBlue = ratesByType["blue"] || 1` (line 132). -/
def dollarBlueOf (rows : List FxRow) : ℚ :=
  jsOr (ratesByType (recentRates rows) "blue") 1

/-- Modelled from the spec: "the most recent stored rate" of a given type,
over the whole store. -/
def specLatestRate (rows : List FxRow) (t : String) : Option FxRow :=
  maxByDate (·.date) (rows.filter (fun r => r.type = t))

lemma find?_congr {α : Type} (p q : α → Bool) (l : List α)
    (h : ∀ a ∈ l, p a = q a) : l.find? p = l.find? q := by
  induction l with
  | nil => rfl
  | cons a l ih =>
    have ha := h a (List.mem_cons_self a l)
    by_cases hp : p a = true
    · rw [List.find?_cons_of_pos _ hp, List.find?_cons_of_pos _ (ha ▸ hp)]
    · have hp' : p a = false := by revert hp; cases p a <;> simp
      rw [List.find?_cons_of_neg, List.find?_cons_of_neg]
      · exact ih (fun x hx => h x (List.mem_cons_of_mem a hx))
      · rw [← ha]; simp [hp']
      · simp [hp']

lemma find?_sorted_max (l : List FxRow) (hs : List.Sorted fxDateDesc l)
    (p : FxRow → Bool) {x : FxRow} (hx : l.find? p = some x) :
    ∀ y ∈ l, p y = true → y.date ≤ x.date := by
  induction l with
  | nil => intro y hy; cases hy
  | cons a l ih =>
    rw [List.sorted_cons] at hs
    by_cases hp : p a = true
    · rw [List.find?_cons_of_pos _ hp] at hx
      cases hx
      intro y hy _
      rcases List.mem_cons.mp hy with rfl | hy
      · exact le_refl _
      · exact hs.1 y hy
    · rw [List.find?_cons_of_neg _ (by simpa using hp)] at hx
      intro y hy hpy
      rcases List.mem_cons.mp hy with rfl | hy
      · exact absurd hpy hp
      · exact ih hs.2 hx y hy hpy

/-- Under the data invariants (positive sell prices, at most one row per
(type, day)), when the store fits inside the `limit(10)` window the
`ratesByType` slot for a type is exactly the sell price of the most recent
stored row of that type. -/
lemma ratesByType_eq_specLatest (rows : List FxRow) (t : String)
    (hlen : rows.length ≤ 10)
    (hpos : ∀ r ∈ rows, 0 < r.sellPrice)
    (huniq : ∀ r1 ∈ rows, ∀ r2 ∈ rows, r1.type = r2.type → r1.date = r2.date → r1 = r2) :
    ratesByType (recentRates rows) t = (specLatestRate rows t).map (·.sellPrice) := by
  have hperm : (List.insertionSort fxDateDesc rows).Perm rows :=
    List.perm_insertionSort fxDateDesc rows
  have htake : recentRates rows = List.insertionSort fxDateDesc rows := by
    unfold recentRates
    exact List.take_of_length_le (by rw [hperm.length_eq]; exact hlen)
  have hsorted : List.Sorted fxDateDesc (List.insertionSort fxDateDesc rows) :=
    List.sorted_insertionSort fxDateDesc rows
  have hmem : ∀ r, r ∈ List.insertionSort fxDateDesc rows ↔ r ∈ rows :=
    fun r => hperm.mem_iff
  have hcongr : (List.insertionSort fxDateDesc rows).find?
        (fun r => decide (r.type = t ∧ r.sellPrice ≠ 0))
      = (List.insertionSort fxDateDesc rows).find? (fun r => decide (r.type = t)) := by
    apply find?_congr
    intro r hr
    have hp := hpos r ((hmem r).mp hr)
    have : (r.type = t ∧ r.sellPrice ≠ 0) ↔ (r.type = t) := by
      constructor
      · exact fun h => h.1
      · exact fun h => ⟨h, ne_of_gt hp⟩
    exact decide_eq_decide.mpr this
  rcases maxByDate_spec (·.date) (rows.filter (fun r => r.type = t)) with
    ⟨hnil, hnone⟩ | ⟨m, hm, hmmem, hmmax⟩
  · have hnot : ∀ r ∈ rows, ¬(r.type = t) := by
      intro r hr hrt
      have : r ∈ rows.filter (fun r => r.type = t) :=
        List.mem_filter.mpr ⟨hr, by simpa using hrt⟩
      rw [hnil] at this
      cases this
    have hfind : (List.insertionSort fxDateDesc rows).find?
        (fun r => decide (r.type = t)) = none := by
      apply List.find?_eq_none.mpr
      intro r hr
      simpa using hnot r ((hmem r).mp hr)
    have hany : (List.insertionSort fxDateDesc rows).any
        (fun r => decide (r.type = t)) = false := by
      rw [List.any_eq_false]
      intro r hr
      simpa using hnot r ((hmem r).mp hr)
    rw [htake]
    unfold ratesByType specLatestRate
    rw [hcongr, hfind, hany, hnil]
    rfl
  · have hmrows : m ∈ rows := (List.mem_filter.mp hmmem).1
    have hmt : m.type = t := by
      have := (List.mem_filter.mp hmmem).2
      simpa using this
    have hmsorted : m ∈ List.insertionSort fxDateDesc rows := (hmem m).mpr hmrows
    obtain ⟨x, hxfind⟩ : ∃ x, (List.insertionSort fxDateDesc rows).find?
        (fun r => decide (r.type = t)) = some x := by
      have : ∃ r ∈ List.insertionSort fxDateDesc rows, decide (r.type = t) = true :=
        ⟨m, hmsorted, by simpa using hmt⟩
      rcases hfind : (List.insertionSort fxDateDesc rows).find?
          (fun r => decide (r.type = t)) with _ | x
      · obtain ⟨r, hr, hrt⟩ := this
        have := List.find?_eq_none.mp hfind r hr
        exact absurd hrt (by simpa using this)
      · exact ⟨x, hfind⟩
    have hxmem : x ∈ rows := (hmem x).mp (List.mem_of_find?_eq_some hxfind)
    have hxt : x.type = t := by
      have := List.find?_some hxfind
      simpa using this
    have hxfilter : x ∈ rows.filter (fun r => r.type = t) :=
      List.mem_filter.mpr ⟨hxmem, by simpa using hxt⟩
    have hxm : x.date ≤ m.date := hmmax x hxfilter
    have hmx : m.date ≤ x.date :=
      find?_sorted_max _ hsorted _ hxfind m hmsorted (by simpa using hmt)
    have hxeqm : x = m := huniq x hxmem m hmrows (hxt.trans hmt.symm)
      (le_antisymm hxm hmx)
    rw [htake]
    unfold ratesByType specLatestRate
    rw [hcongr, hxfind, hm, hxeqm]
    rfl

lemma jsOr_eq_specLatest (rows : List FxRow) (t : String) (d : ℚ)
    (hlen : rows.length ≤ 10)
    (hpos : ∀ r ∈ rows, 0 < r.sellPrice)
    (huniq : ∀ r1 ∈ rows, ∀ r2 ∈ rows, r1.type = r2.type → r1.date = r2.date → r1 = r2) :
    jsOr (ratesByType (recentRates rows) t) d
      = ((specLatestRate rows t).map (·.sellPrice)).getD d := by
  rw [ratesByType_eq_specLatest rows t hlen hpos huniq]
  rcases hs : specLatestRate rows t with _ | m
  · rfl
  · have hmmem : m ∈ rows := by
      rcases maxByDate_spec (fun r : FxRow => r.date) (rows.filter (fun r => r.type = t)) with
        ⟨hnil, hnone⟩ | ⟨m', hm', hmem', _⟩
      · rw [specLatestRate, hnil] at hs
        cases hs
      · rw [specLatestRate] at hs
        rw [hs] at hm'
        cases hm'
        exact (List.mem_filter.mp hmem').1
    have : m.sellPrice ≠ 0 := ne_of_gt (hpos m hmmem)
    simp [jsOr, this]

/-- C4 (amended): when the FX-rate store fits inside the `limit(10)`
window and satisfies the data invariants (positive sell prices, at most one
row per (type, day)), the oficial rate resolves to the most recent stored
oficial sell price, falling back to the most recent mep sell price, else 1;
mep and blue each independently resolve to their most recent stored sell
price, defaulting to 1 when never synced. -/
theorem fx_resolution_amended (rows : List FxRow)
    (hlen : rows.length ≤ 10)
    (hpos : ∀ r ∈ rows, 0 < r.sellPrice)
    (huniq : ∀ r1 ∈ rows, ∀ r2 ∈ rows, r1.type = r2.type → r1.date = r2.date → r1 = r2) :
    dollarOficialOf rows =
      ((specLatestRate rows "oficial").map (·.sellPrice)).getD
        (((specLatestRate rows "mep").map (·.sellPrice)).getD 1)
    ∧ dollarMepOf rows = ((specLatestRate rows "mep").map (·.sellPrice)).getD 1
    ∧ dollarBlueOf rows = ((specLatestRate rows "blue").map (·.sellPrice)).getD 1 := by
  refine ⟨?_, ?_, ?_⟩
  · rw [dollarOficialOf, jsOr_eq_specLatest rows "mep" 1 hlen hpos huniq,
      jsOr_eq_specLatest rows "oficial" _ hlen hpos huniq]
  · exact jsOr_eq_specLatest rows "mep" 1 hlen hpos huniq
  · exact jsOr_eq_specLatest rows "blue" 1 hlen hpos huniq

/-- A two-row store exercising the amended FX-resolution theorem. -/
def fxRowsSmall : List FxRow :=
  [⟨5, "oficial", 480, 500⟩, ⟨5, "mep", 1100, 1150⟩]

/-- Witness for `fx_resolution_amended` at a concrete store. -/
theorem fx_resolution_amended_witness :
    (fxRowsSmall.length ≤ 10
      ∧ (∀ r ∈ fxRowsSmall, 0 < r.sellPrice)
      ∧ (∀ r1 ∈ fxRowsSmall, ∀ r2 ∈ fxRowsSmall,
          r1.type = r2.type → r1.date = r2.date → r1 = r2))
    ∧ (dollarOficialOf fxRowsSmall =
        ((specLatestRate fxRowsSmall "oficial").map (·.sellPrice)).getD
          (((specLatestRate fxRowsSmall "mep").map (·.sellPrice)).getD 1)
      ∧ dollarMepOf fxRowsSmall =
          ((specLatestRate fxRowsSmall "mep").map (·.sellPrice)).getD 1
      ∧ dollarBlueOf fxRowsSmall =
          ((specLatestRate fxRowsSmall "blue").map (·.sellPrice)).getD 1) :=
  ⟨⟨by decide, by decide, by decide⟩,
    fx_resolution_amended fxRowsSmall (by decide) (by decide) (by decide)⟩

/-- A store with one old "oficial" row and ten newer "blue" rows: the most
recent stored oficial rate exists (sell price 500), yet the
`limit(10)` window of the route contains only "blue" rows. -/
def fxRowsLimitEx : List FxRow :=
  [⟨1, "oficial", 480, 500⟩,
   ⟨2, "blue", 1180, 1200⟩, ⟨3, "blue", 1180, 1200⟩, ⟨4, "blue", 1180, 1200⟩,
   ⟨5, "blue", 1180, 1200⟩, ⟨6, "blue", 1180, 1200⟩, ⟨7, "blue", 1180, 1200⟩,
   ⟨8, "blue", 1180, 1200⟩, ⟨9, "blue", 1180, 1200⟩, ⟨10, "blue", 1180, 1200⟩,
   ⟨11, "blue", 1180, 1200⟩]

/-- C4 counterexample: the store holds an oficial rate whose most recent sell
price is 500, but the engine resolves the oficial dollar to 1 (the default),
because the oficial row falls outside the 10 most recently dated rows the
route inspects.  The claim "most recent stored oficial rate, else mep,
else 1.0" is therefore false as stated. -/
theorem fx_limit_counterexample :
    (specLatestRate fxRowsLimitEx "oficial").map (·.sellPrice) = some 500
    ∧ dollarOficialOf fxRowsLimitEx = 1 := by
  constructor
  · rfl
  · rfl

/-- Two buys of the same asset: the concrete example of the spec. -/
def txsEx : List Txn :=
  [⟨"asset-x", "buy", 10, 100, 1⟩, ⟨"asset-x", "buy", 10, 200, 1⟩]

/-- Witness for `avg_price_times_bought_eq_cost` at a concrete history. -/
theorem avg_price_witness :
    (∀ t ∈ txsEx, 0 < t.quantity ∧ 0 < t.unitPrice)
    ∧ (∀ h ∈ holdingsAgg txsEx,
        avgPriceOf h.totalBought h.totalCost * h.totalBought = h.totalCost
        ∧ (avgPriceOf h.totalBought h.totalCost = 0 ↔ h.totalBought = 0))
    ∧ (∀ ff : Txn → ℚ,
        holdingsAgg (txsEx.map (fun t => { t with fee := ff t })) = holdingsAgg txsEx) :=
  ⟨by decide, (avg_price_times_bought_eq_cost txsEx (by decide)).1,
    (avg_price_times_bought_eq_cost txsEx (by decide)).2⟩

/-! ### Store upserts (`INSERT … ON CONFLICT DO UPDATE`)

The sync route persists rows with `onConflictDoUpdate` targeting
`(quotes.assetId, quotes.date)` and `(dollarRates.date, dollarRates.type)`:
a conflicting row is overwritten in place, otherwise the row is appended. -/

section Upserts

variable {α : Type} {κ : Type} [DecidableEq κ]

/-- One `ON CONFLICT DO UPDATE` upsert keyed by `key`. -/
def upsertBy (key : α → κ) (r : α) (l : List α) : List α :=
  if l.any (fun q => decide (key q = key r)) then
    l.map (fun q => if key q = key r then r else q)
  else l ++ [r]

/-- A sequence of upserts applied left to right. -/
def applyUpserts (key : α → κ) (rs : List α) (l : List α) : List α :=
  rs.foldl (fun acc r => upsertBy key r acc) l

/-- The store carries exactly value `r` at the key of `r`: some row has that key,
and every row with that key is `r`. -/
def settledAt (key : α → κ) (r : α) (l : List α) : Prop :=
  (∃ q ∈ l, key q = key r) ∧ ∀ q ∈ l, key q = key r → q = r

/-- At most one row per key. -/
def wfBy (key : α → κ) (l : List α) : Prop :=
  l.Pairwise (fun a b => key a ≠ key b)

lemma settledAt_upsertBy_self (key : α → κ) (r : α) (l : List α) :
    settledAt key r (upsertBy key r l) := by
  unfold upsertBy
  by_cases h : l.any (fun q => decide (key q = key r)) = true
  · rw [if_pos h]
    obtain ⟨q0, hq0, hq0k⟩ := List.any_eq_true.mp h
    have hq0k' : key q0 = key r := of_decide_eq_true hq0k
    constructor
    · exact ⟨r, List.mem_map.mpr ⟨q0, hq0, by rw [if_pos hq0k']⟩, rfl⟩
    · intro q hq hqk
      obtain ⟨q', hq', rfl⟩ := List.mem_map.mp hq
      by_cases hk : key q' = key r
      · rw [if_pos hk]
      · rw [if_neg hk] at hqk ⊢
        exact absurd hqk hk
  · rw [if_neg h]
    constructor
    · exact ⟨r, List.mem_append_right l (by simp), rfl⟩
    · intro q hq hqk
      rcases List.mem_append.mp hq with hql | hqr
      · exact absurd (List.any_eq_true.mpr ⟨q, hql, decide_eq_true hqk⟩) h
      · simpa using hqr

lemma upsertBy_of_settledAt (key : α → κ) (r : α) (l : List α)
    (hs : settledAt key r l) : upsertBy key r l = l := by
  obtain ⟨⟨q0, hq0, hq0k⟩, hall⟩ := hs
  unfold upsertBy
  rw [if_pos (List.any_eq_true.mpr ⟨q0, hq0, decide_eq_true hq0k⟩)]
  have hfix : ∀ q ∈ l, (if key q = key r then r else q) = q := by
    intro q hq
    by_cases hk : key q = key r
    · rw [if_pos hk, hall q hq hk]
    · rw [if_neg hk]
  have h2 : l.map (fun q => if key q = key r then r else q) = l.map id :=
    List.map_congr_left (fun q hq => hfix q hq)
  rw [h2, List.map_id]

lemma settledAt_upsertBy_ne (key : α → κ) (r r' : α) (l : List α)
    (hne : key r' ≠ key r) (hs : settledAt key r l) :
    settledAt key r (upsertBy key r' l) := by
  obtain ⟨⟨q0, hq0, hq0k⟩, hall⟩ := hs
  have hq0r : q0 = r := hall q0 hq0 hq0k
  subst hq0r
  unfold upsertBy
  by_cases h : l.any (fun q => decide (key q = key r')) = true
  · rw [if_pos h]
    constructor
    · refine ⟨q0, List.mem_map.mpr ⟨q0, hq0, ?_⟩, hq0k⟩
      rw [if_neg]
      intro hh
      exact hne (hh.symm.trans hq0k)
    · intro q hq hqk
      obtain ⟨q', hq', rfl⟩ := List.mem_map.mp hq
      by_cases hk : key q' = key r'
      · rw [if_pos hk] at hqk ⊢
        exact absurd hqk hne
      · rw [if_neg hk] at hqk ⊢
        exact hall q' hq' hqk
  · rw [if_neg h]
    constructor
    · exact ⟨q0, List.mem_append_left _ hq0, hq0k⟩
    · intro q hq hqk
      rcases List.mem_append.mp hq with hql | hqr
      · exact hall q hql hqk
      · have : q = r' := by simpa using hqr
        subst this
        exact absurd hqk hne

lemma settledAt_applyUpserts (key : α → κ) (r : α) (rs : List α) (l : List α)
    (hne : ∀ r' ∈ rs, key r' ≠ key r) (hs : settledAt key r l) :
    settledAt key r (applyUpserts key rs l) := by
  induction rs generalizing l with
  | nil => exact hs
  | cons a rs ih =>
    exact ih _ (fun r' hr' => hne r' (List.mem_cons_of_mem a hr'))
      (settledAt_upsertBy_ne key r a l (hne a (List.mem_cons_self a rs)) hs)

/-- Re-applying the same key-distinct sequence of upserts is a no-op. -/
lemma applyUpserts_idem (key : α → κ) (rs : List α) (l : List α)
    (h : rs.Pairwise (fun a b => key a ≠ key b)) :
    applyUpserts key rs (applyUpserts key rs l) = applyUpserts key rs l := by
  induction rs generalizing l with
  | nil => rfl
  | cons x rs ih =>
    rw [List.pairwise_cons] at h
    have h1 : settledAt key x (upsertBy key x l) := settledAt_upsertBy_self key x l
    have h2 : settledAt key x (applyUpserts key rs (upsertBy key x l)) :=
      settledAt_applyUpserts key x rs _ (fun r' hr' => (h.1 r' hr').symm) h1
    show applyUpserts key rs (upsertBy key x (applyUpserts key rs (upsertBy key x l)))
        = applyUpserts key rs (upsertBy key x l)
    rw [upsertBy_of_settledAt key x _ h2]
    exact ih _ h.2

lemma wfBy_upsertBy (key : α → κ) (r : α) (l : List α) (h : wfBy key l) :
    wfBy key (upsertBy key r l) := by
  unfold upsertBy wfBy
  by_cases hc : l.any (fun q => decide (key q = key r)) = true
  · rw [if_pos hc]
    refine List.Pairwise.map _ ?_ h
    intro a b hab
    by_cases ha : key a = key r <;> by_cases hb : key b = key r
    · exact absurd (ha.trans hb.symm) hab
    · rw [if_pos ha, if_neg hb]
      intro hh
      exact hb hh.symm
    · rw [if_neg ha, if_pos hb]
      intro hh
      exact ha hh
    · rw [if_neg ha, if_neg hb]
      exact hab
  · rw [if_neg hc]
    rw [List.pairwise_append]
    refine ⟨h, List.pairwise_singleton _ _, ?_⟩
    intro a ha b hb
    have : b = r := by simpa using hb
    subst this
    intro hh
    exact hc (List.any_eq_true.mpr ⟨a, ha, decide_eq_true hh⟩)

/-- Upserting never creates a duplicate key. -/
lemma wfBy_applyUpserts (key : α → κ) (rs : List α) (l : List α)
    (h : wfBy key l) : wfBy key (applyUpserts key rs l) := by
  induction rs generalizing l with
  | nil => exact h
  | cons a rs ih => exact ih _ (wfBy_upsertBy key a l h)

end Upserts

/-! ### FX adapter (`src/lib/quotes/dolarapi.ts`)

`fetchDolarApi` throws on a network error or a non-2xx response, otherwise
maps the provider entries to `DollarRate`s; `fetchBluelytics` does the same
for the differently-shaped body of the fallback provider; `fetchDollarRates`
tries the primary and falls back to Bluelytics on any failure.  I/O is
modelled by passing the HTTP interaction of each provider as an `Except`
(`.error` = the fetch threw) of a response with an `ok` flag. -/

/-- The adapters' common output shape (interface `DollarRate`). -/
structure DollarRate where
  type : String
  buyPrice : ℚ
  sellPrice : ℚ
deriving DecidableEq

/-- An HTTP response as the adapters see it. -/
structure HttpResp (β : Type) where
  ok : Bool
  status : ℕ
  body : β
deriving DecidableEq

/-- One entry of the DolarAPI body: `{ casa, compra, venta }`. -/
structure DolarApiEntry where
  casa : String
  compra : ℚ
  venta : ℚ
deriving DecidableEq

/-- One `{ value_buy, value_sell }` pair of the Bluelytics body. -/
structure BluelyticsPair where
  value_buy : ℚ
  value_sell : ℚ
deriving DecidableEq

/-- The Bluelytics body: optional `oficial` and `blue` objects. -/
structure BluelyticsBody where
  oficial : Option BluelyticsPair
  blue : Option BluelyticsPair
deriving DecidableEq

/-- The primary adapter `fetchDolarApi` (lines 7–26). -/
def fetchDolarApi (resp : Except String (HttpResp (List DolarApiEntry))) :
    Except String (List DollarRate) :=
  match resp with
  | .error e => .error e
  | .ok r =>
    if r.ok then .ok (r.body.map (fun d => ⟨d.casa, d.compra, d.venta⟩))
    else .error ("DolarAPI error: " ++ toString r.status)

/-- The fallback adapter `fetchBluelytics` (lines 29–62). -/
def fetchBluelytics (resp : Except String (HttpResp BluelyticsBody)) :
    Except String (List DollarRate) :=
  match resp with
  | .error e => .error e
  | .ok r =>
    if r.ok then
      .ok ((match r.body.oficial with
            | some p => [⟨"oficial", p.value_buy, p.value_sell⟩]
            | none => []) ++
           (match r.body.blue with
            | some p => [⟨"blue", p.value_buy, p.value_sell⟩]
            | none => []))
    else .error ("Bluelytics API error: " ++ toString r.status)

/-- The combined adapter `fetchDollarRates` (lines 64–71): try DolarAPI, fall back to Bluelytics
on any failure. -/
def fetchDollarRates (primary : Except String (HttpResp (List DolarApiEntry)))
    (fallback : Except String (HttpResp BluelyticsBody)) :
    Except String (List DollarRate) :=
  match fetchDolarApi primary with
  | .ok rates => .ok rates
  | .error _ => fetchBluelytics fallback

/-! ### Crypto adapter (`src/lib/quotes/coingecko.ts`)

An empty id list returns `{}` without a network call; otherwise the batched
response body (`data[id]?.usd`, modelled as `String → Option ℚ`) is filtered:
an id is kept only when its usd field is present and truthy (non-zero). -/

/-- The crypto adapter `fetchCoinGecko`: the returned id→price mapping as an association list. -/
def fetchCoinGecko (coingeckoIds : List String)
    (resp : Except String (String → Option ℚ)) :
    Except String (List (String × ℚ)) :=
  if coingeckoIds.isEmpty then .ok []
  else
    match resp with
    | .error e => .error e
    | .ok body =>
      .ok (coingeckoIds.filterMap (fun cid =>
        match body cid with
        | some p => if p = 0 then none else some (cid, p)
        | none => none))

/-! ### Equity adapter (`src/lib/quotes/yahoo.ts`)

`fetchYahooQuote` runs up to `retries + 1` attempts.  The HTTP interaction of each attempt is one of: the fetch throwing (abort after the 15 s timeout, or
a network error), a rate-limit signal (HTTP 429 or a rate-limit marker in
the body), a non-2xx status, an unparsable body, a body without chart meta,
or a parsed meta object.  A rate-limit signal waits `3000·(attempt+1)` ms
and retries (even on the final attempt the delay runs before giving up);
other failures wait a fixed 1500 ms before retrying, or return `null` when
the retry budget is exhausted; a missing meta or a non-numeric price gives
up immediately. -/

/-- The chart `meta` object fields the adapter reads. -/
structure YahooMeta where
  regularMarketPrice : Option ℚ
  previousClose : Option ℚ
  chartPreviousClose : Option ℚ
  currency : Option String
  longName : Option String
  shortName : Option String
deriving DecidableEq

/-- The outcome of the HTTP interaction of one attempt. -/
inductive YahooAttempt where
  | fetchError (msg : String)
  | rateLimited
  | httpError (status : ℕ)
  | badJson
  | noMeta
  | ok (meta : YahooMeta)
deriving DecidableEq

/-- The per-ticker result of the adapter (interface `YahooQuote`). -/
structure YahooQuote where
  ticker : String
  price : ℚ
  currency : String
  name : String
deriving DecidableEq

/-- JS `s || d` for an optionally-present string: the empty string is falsy. -/
def jsOrS (x : Option String) (d : String) : String :=
  match x with
  | some s => if s = "" then d else s
  | none => d

/-- The chain `meta.regularMarketPrice ?? meta.previousClose ?? meta.chartPreviousClose`
(nullish coalescing: a present `0` is kept). -/
def yahooPriceOf (meta : YahooMeta) : Option ℚ :=
  match meta.regularMarketPrice with
  | some p => some p
  | none =>
    match meta.previousClose with
    | some p => some p
    | none => meta.chartPreviousClose

/-- The retry loop of `fetchYahooQuote`, returning the result and the list of
delays (in ms) it slept, in order.  `fuel` counts the remaining loop
iterations (`retries + 1 - attempt`). -/
def yahooLoop (ticker : String) (retries : ℕ) (outcomes : ℕ → YahooAttempt)
    (attempt : ℕ) : ℕ → Option YahooQuote × List ℕ
  | 0 => (none, [])
  | fuel + 1 =>
    match outcomes attempt with
    | .rateLimited =>
      let rest := yahooLoop ticker retries outcomes (attempt + 1) fuel
      (rest.1, 3000 * (attempt + 1) :: rest.2)
    | .httpError _ =>
      if attempt < retries then
        let rest := yahooLoop ticker retries outcomes (attempt + 1) fuel
        (rest.1, 1500 :: rest.2)
      else (none, [])
    | .badJson =>
      if attempt < retries then
        let rest := yahooLoop ticker retries outcomes (attempt + 1) fuel
        (rest.1, 1500 :: rest.2)
      else (none, [])
    | .fetchError _ =>
      if attempt < retries then
        let rest := yahooLoop ticker retries outcomes (attempt + 1) fuel
        (rest.1, 1500 :: rest.2)
      else (none, [])
    | .noMeta => (none, [])
    | .ok meta =>
      match yahooPriceOf meta with
      | none => (none, [])
      | some p =>
        (some ⟨ticker, p, jsOrS meta.currency "ARS",
          jsOrS meta.longName (jsOrS meta.shortName ticker)⟩, [])

/-- The single-ticker fetch `fetchYahooQuote(yahooTicker, retries = 2)`: result plus delay trace. -/
def fetchYahooQuote (ticker : String) (outcomes : ℕ → YahooAttempt)
    (retries : ℕ := 2) : Option YahooQuote × List ℕ :=
  yahooLoop ticker retries outcomes 0 (retries + 1)

/-- The batch fetch `fetchYahooQuotes`: sequential per-ticker fetch collecting the successes
into a ticker→price record (later assignments win, modelled by the fold). -/
def fetchYahooQuotes (yahooTickers : List String)
    (outcomes : String → ℕ → YahooAttempt) : List (String × ℚ) :=
  yahooTickers.foldl (fun results t =>
    match (fetchYahooQuote t (outcomes t)).1 with
    | some q => results ++ [(q.ticker, q.price)]
    | none => results) []

/-! ### Quote-sync orchestrator (`src/app/api/quotes/sync/route.ts`)

The POST handler runs three passes (FX, crypto, equity) for the current date.
Every adapter invocation sits inside a `try`: a pass that throws sets its
source status to "error" and appends one message to `errors`; the handler
itself always returns a summary.  The adapter outcome of each pass is passed in
as an `Except` (`.error` = the `try` block of the pass threw at the adapter
boundary).  The net effect of a pass on the store is the ordered list of
upserts it performs, all keyed by `(assetId, today)` or `(today, type)`. -/

/-- The persistent store the sync mutates. -/
structure Store where
  quotes : List QuoteRow
  fxRates : List FxRow
deriving DecidableEq

/-- Unique key of a quote row (`unique_asset_date`). -/
def quoteKey (q : QuoteRow) : String × ℕ := (q.assetId, q.date)

/-- Unique key of an FX-rate row (`unique_date_type`). -/
def fxKey (r : FxRow) : ℕ × String := (r.date, r.type)

/-- All inputs of one sync run: the current date and the three adapter outcomes
(the asset lists come from the asset table). -/
structure SyncInput where
  today : ℕ
  fx : Except String (List DollarRate)
  cryptoAssets : List Asset
  cryptoFetch : Except String (String → Option ℚ)
  yahooAssets : List Asset
  yahooFetch : Except String (String → Option ℚ)

/-- The summary object the handler returns. -/
structure SyncSummary where
  updated : ℕ
  errors : List String
  dolarapi : String
  coingecko : String
  yahoo : String
  details : List (String × Option String × Option ℚ)

/-- FX pass (lines 23–49): on success one upsert per returned rate, keyed
`(today, type)`; on failure one error entry and status "error". -/
def fxPass (today : ℕ) (fetch : Except String (List DollarRate)) :
    List FxRow × List String × String :=
  match fetch with
  | .ok rates => (rates.map (fun r => ⟨today, r.type, r.buyPrice, r.sellPrice⟩), [], "ok")
  | .error e => ([], ["Dollar rates: " ++ e], "error")

/-- The quote upserts of the crypto loop (lines 64–79): one per asset with a
configured `coingeckoId` whose returned price is truthy (present and
non-zero). -/
def cryptoQuoteRows (today : ℕ) (cryptoAssets : List Asset)
    (prices : String → Option ℚ) : List QuoteRow :=
  cryptoAssets.filterMap (fun a =>
    match a.coingeckoId with
    | some cid =>
      match prices cid with
      | some p => if p = 0 then none else some ⟨a.id, today, p⟩
      | none => none
    | none => none)

/-- Crypto pass (lines 51–86): skipped entirely when no asset has a
`coingeckoId`; a throwing fetch yields one error entry and status "error". -/
def cryptoPass (today : ℕ) (cryptoAssets : List Asset)
    (fetch : Except String (String → Option ℚ)) :
    List QuoteRow × List String × String :=
  if (cryptoAssets.filterMap (·.coingeckoId)).isEmpty then ([], [], "ok")
  else
    match fetch with
    | .error e => ([], ["CoinGecko: " ++ e], "error")
    | .ok prices => (cryptoQuoteRows today cryptoAssets prices, [], "ok")

/-- The quote upserts of the equity loop (lines 106–132): one per asset with
a configured `yahooTicker` whose fetched price is truthy. -/
def yahooQuoteRows (today : ℕ) (yahooAssets : List Asset)
    (prices : String → Option ℚ) : List QuoteRow :=
  yahooAssets.filterMap (fun a =>
    match a.yahooTicker with
    | some yt =>
      match prices yt with
      | some p => if p = 0 then none else some ⟨a.id, today, p⟩
      | none => none
    | none => none)

/-- The per-asset error entries of the equity loop: "No price" when a
configured ticker has no truthy price, "has no yahooTicker configured" when
the asset lacks a ticker. -/
def yahooErrs (yahooAssets : List Asset) (prices : String → Option ℚ) :
    List String :=
  yahooAssets.filterMap (fun a =>
    match a.yahooTicker with
    | some yt =>
      match prices yt with
      | some p =>
        if p = 0 then some ("Yahoo: No price for " ++ a.ticker ++ " (" ++ yt ++ ")")
        else none
      | none => some ("Yahoo: No price for " ++ a.ticker ++ " (" ++ yt ++ ")")
    | none => some ("Yahoo: " ++ a.ticker ++ " has no yahooTicker configured"))

/-- The `yahooDetails` observability entries (lines 107–112). -/
def yahooDetailsOf (yahooAssets : List Asset) (prices : String → Option ℚ) :
    List (String × Option String × Option ℚ) :=
  yahooAssets.map (fun a => (a.ticker, a.yahooTicker, a.yahooTicker.bind prices))

/-- Equity pass (lines 88–139): skipped when no asset has a `yahooTicker`;
a throwing pass yields one error entry and status "error". -/
def yahooPass (today : ℕ) (yahooAssets : List Asset)
    (fetch : Except String (String → Option ℚ)) :
    List QuoteRow × List String × String × List (String × Option String × Option ℚ) :=
  if (yahooAssets.filterMap (·.yahooTicker)).isEmpty then ([], [], "ok", [])
  else
    match fetch with
    | .error e => ([], ["Yahoo Finance: " ++ e], "error", [])
    | .ok prices =>
      (yahooQuoteRows today yahooAssets prices,
       yahooErrs yahooAssets prices, "ok",
       yahooDetailsOf yahooAssets prices)

/-- The whole POST handler: applies the three passes' upserts to the store
(crypto quote upserts, then equity quote upserts, then — independently —
the FX upserts) and assembles the summary.  The summary never depends on
the prior store state. -/
def syncQuotes (inp : SyncInput) (s : Store) : Store × SyncSummary :=
  let fx := fxPass inp.today inp.fx
  let cp := cryptoPass inp.today inp.cryptoAssets inp.cryptoFetch
  let yp := yahooPass inp.today inp.yahooAssets inp.yahooFetch
  (⟨applyUpserts quoteKey (cp.1 ++ yp.1) s.quotes,
    applyUpserts fxKey fx.1 s.fxRates⟩,
   ⟨fx.1.length + cp.1.length + yp.1.length,
    fx.2.1 ++ cp.2.1 ++ yp.2.1,
    fx.2.2, cp.2.2, yp.2.2.1,
    yp.2.2.2⟩)

lemma map_filterMap_sublist {α β γ : Type} (f : α → Option β) (g : α → γ)
    (h : β → γ) (hfg : ∀ a b, f a = some b → h b = g a) (l : List α) :
    ((l.filterMap f).map h).Sublist (l.map g) := by
  induction l with
  | nil => simp
  | cons a l ih =>
    cases hfa : f a with
    | none =>
      rw [List.filterMap_cons_none hfa, List.map_cons]
      exact ih.cons _
    | some b =>
      rw [List.filterMap_cons_some hfa, List.map_cons, List.map_cons,
        hfg a b hfa]
      exact ih.cons₂ _

lemma cryptoQuoteRows_ids_sublist (today : ℕ) (cryptoAssets : List Asset)
    (prices : String → Option ℚ) :
    ((cryptoQuoteRows today cryptoAssets prices).map (·.assetId)).Sublist
      (cryptoAssets.map (·.id)) := by
  unfold cryptoQuoteRows
  apply map_filterMap_sublist
  intro a r hf
  split at hf
  · split at hf
    · split at hf
      · cases hf
      · cases hf
        rfl
    · cases hf
  · cases hf

lemma yahooQuoteRows_ids_sublist (today : ℕ) (yahooAssets : List Asset)
    (prices : String → Option ℚ) :
    ((yahooQuoteRows today yahooAssets prices).map (·.assetId)).Sublist
      (yahooAssets.map (·.id)) := by
  unfold yahooQuoteRows
  apply map_filterMap_sublist
  intro a r hf
  split at hf
  · split at hf
    · split at hf
      · cases hf
      · cases hf
        rfl
    · cases hf
  · cases hf

lemma cryptoPass_ids_sublist (today : ℕ) (cryptoAssets : List Asset)
    (fetch : Except String (String → Option ℚ)) :
    (((cryptoPass today cryptoAssets fetch).1).map (·.assetId)).Sublist
      (cryptoAssets.map (·.id)) := by
  unfold cryptoPass
  by_cases hje : (cryptoAssets.filterMap (·.coingeckoId)).isEmpty = true
  · rw [if_pos hje]
    exact List.nil_sublist _
  · rw [if_neg hje]
    cases fetch with
    | error e => exact List.nil_sublist _
    | ok prices => exact cryptoQuoteRows_ids_sublist today cryptoAssets prices

lemma yahooPass_ids_sublist (today : ℕ) (yahooAssets : List Asset)
    (fetch : Except String (String → Option ℚ)) :
    (((yahooPass today yahooAssets fetch).1).map (·.assetId)).Sublist
      (yahooAssets.map (·.id)) := by
  unfold yahooPass
  by_cases hje : (yahooAssets.filterMap (·.yahooTicker)).isEmpty = true
  · rw [if_pos hje]
    exact List.nil_sublist _
  · rw [if_neg hje]
    cases fetch with
    | error e => exact List.nil_sublist _
    | ok prices => exact yahooQuoteRows_ids_sublist today yahooAssets prices

/-- With globally distinct asset ids, the quote upserts of one sync run
target pairwise-distinct `(assetId, today)` keys. -/
lemma sync_quote_keys_pairwise (inp : SyncInput)
    (hids : ((inp.cryptoAssets ++ inp.yahooAssets).map (·.id)).Nodup) :
    ((cryptoPass inp.today inp.cryptoAssets inp.cryptoFetch).1
      ++ (yahooPass inp.today inp.yahooAssets inp.yahooFetch).1).Pairwise
      (fun a b => quoteKey a ≠ quoteKey b) := by
  have hsub : (((cryptoPass inp.today inp.cryptoAssets inp.cryptoFetch).1
      ++ (yahooPass inp.today inp.yahooAssets inp.yahooFetch).1).map (·.assetId)).Sublist
      ((inp.cryptoAssets ++ inp.yahooAssets).map (·.id)) := by
    rw [List.map_append, List.map_append]
    exact List.Sublist.append
      (cryptoPass_ids_sublist inp.today inp.cryptoAssets inp.cryptoFetch)
      (yahooPass_ids_sublist inp.today inp.yahooAssets inp.yahooFetch)
  have hnodup := List.Nodup.sublist hsub hids
  have hpw := List.pairwise_map.mp hnodup
  exact hpw.imp (fun hab hk => hab (congrArg Prod.fst hk))

/-- With distinct rate types in the FX payload, the FX upserts of one sync
run target pairwise-distinct `(today, type)` keys. -/
lemma sync_fx_keys_pairwise (today : ℕ) (fetch : Except String (List DollarRate))
    (hfx : ∀ rates, fetch = .ok rates → (rates.map (·.type)).Nodup) :
    (fxPass today fetch).1.Pairwise (fun a b => fxKey a ≠ fxKey b) := by
  cases hf : fetch with
  | error e => simp [fxPass]
  | ok rates =>
    have hnodup := hfx rates hf
    unfold fxPass
    have : ((rates.map (fun r => (⟨today, r.type, r.buyPrice, r.sellPrice⟩ : FxRow))).map
        (·.type)) = rates.map (·.type) := by
      rw [List.map_map]
      rfl
    have hnodup2 : ((rates.map (fun r =>
        (⟨today, r.type, r.buyPrice, r.sellPrice⟩ : FxRow))).map (·.type)).Nodup := by
      rw [this]
      exact hnodup
    have hpw := List.pairwise_map.mp hnodup2
    exact hpw.imp (fun hab hk => hab (congrArg Prod.snd hk))

/-- C6: a second sync run with unchanged adapter outcomes leaves both stores
exactly as after the first run (same rows, same prices), returns the same
summary, and upserting never introduces a duplicate `(assetId, day)` or
`(day, type)` row. -/
theorem sync_idempotent (inp : SyncInput) (s : Store)
    (hids : ((inp.cryptoAssets ++ inp.yahooAssets).map (·.id)).Nodup)
    (hfx : ∀ rates, inp.fx = .ok rates → (rates.map (·.type)).Nodup) :
    (syncQuotes inp (syncQuotes inp s).1).1 = (syncQuotes inp s).1
    ∧ (syncQuotes inp (syncQuotes inp s).1).2 = (syncQuotes inp s).2
    ∧ (wfBy quoteKey s.quotes → wfBy quoteKey ((syncQuotes inp s).1).quotes)
    ∧ (wfBy fxKey s.fxRates → wfBy fxKey ((syncQuotes inp s).1).fxRates) := by
  refine ⟨?_, rfl, ?_, ?_⟩
  · show Store.mk
      (applyUpserts quoteKey _ (applyUpserts quoteKey _ s.quotes))
      (applyUpserts fxKey _ (applyUpserts fxKey _ s.fxRates))
      = Store.mk (applyUpserts quoteKey _ s.quotes) (applyUpserts fxKey _ s.fxRates)
    rw [applyUpserts_idem quoteKey _ _ (sync_quote_keys_pairwise inp hids),
      applyUpserts_idem fxKey _ _ (sync_fx_keys_pairwise inp.today inp.fx hfx)]
  · exact fun hwf => wfBy_applyUpserts quoteKey _ _ hwf
  · exact fun hwf => wfBy_applyUpserts fxKey _ _ hwf

/-- Asset exercising the sync theorems: a CEDEAR whose ticker fails. -/
def assetFailEx : Asset :=
  ⟨"id-1", "AAPL", "Apple", "cedear", "ARS", some "AAPL.BA", none⟩

/-- Asset exercising the sync theorems: a CEDEAR whose ticker succeeds. -/
def assetOkEx : Asset :=
  ⟨"id-2", "GOOGL", "Alphabet", "cedear", "ARS", some "GOOGL.BA", none⟩

/-- Equity prices: only GOOGL.BA resolves. -/
def yahooPricesEx : String → Option ℚ :=
  fun t => if t = "GOOGL.BA" then some 350 else none

/-- A sync-run input where FX and crypto fail and one of two equity tickers
succeeds. -/
def syncInpEx : SyncInput :=
  ⟨7, .error "DolarAPI error: 500", [], .error "CoinGecko API error: 429",
   [assetFailEx, assetOkEx], .ok yahooPricesEx⟩

/-- Witness for `sync_idempotent` at a concrete input and empty store. -/
theorem sync_idempotent_witness :
    (((syncInpEx.cryptoAssets ++ syncInpEx.yahooAssets).map (·.id)).Nodup
      ∧ (∀ rates, syncInpEx.fx = .ok rates → (rates.map (·.type)).Nodup))
    ∧ ((syncQuotes syncInpEx (syncQuotes syncInpEx ⟨[], []⟩).1).1
        = (syncQuotes syncInpEx ⟨[], []⟩).1
      ∧ (syncQuotes syncInpEx (syncQuotes syncInpEx ⟨[], []⟩).1).2
        = (syncQuotes syncInpEx ⟨[], []⟩).2
      ∧ (wfBy quoteKey ([] : List QuoteRow)
          → wfBy quoteKey ((syncQuotes syncInpEx ⟨[], []⟩).1).quotes)
      ∧ (wfBy fxKey ([] : List FxRow)
          → wfBy fxKey ((syncQuotes syncInpEx ⟨[], []⟩).1).fxRates)) :=
  ⟨⟨by decide, fun rates h => by cases h⟩,
    sync_idempotent syncInpEx ⟨[], []⟩ (by decide) (fun rates h => by cases h)⟩

/-- C3: with the adapter outcome of the equity pass in hand, an individual ticker
with no usable price only contributes an error entry: if the ticker of another asset resolved to a non-zero price the run still reports `updated ≥ 1`,
the message for the failed ticker is in `errors`, and the equity source status is
"ok"; and for every combination of adapter outcomes the handler returns a
summary whose per-source statuses are each a definite "ok" or "error". -/
theorem sync_partial_failure (inp : SyncInput) (s : Store)
    (prices : String → Option ℚ) (hok : inp.yahooFetch = .ok prices)
    (a1 a2 : Asset) (t1 t2 : String) (p : ℚ)
    (h1 : a1 ∈ inp.yahooAssets) (ht1 : a1.yahooTicker = some t1)
    (hp1 : prices t1 = none)
    (h2 : a2 ∈ inp.yahooAssets) (ht2 : a2.yahooTicker = some t2)
    (hp2 : prices t2 = some p) (hp0 : p ≠ 0) :
    1 ≤ (syncQuotes inp s).2.updated
    ∧ ("Yahoo: No price for " ++ a1.ticker ++ " (" ++ t1 ++ ")")
        ∈ (syncQuotes inp s).2.errors
    ∧ (syncQuotes inp s).2.yahoo = "ok"
    ∧ (∀ (inp' : SyncInput) (s' : Store),
        ((syncQuotes inp' s').2.dolarapi = "ok" ∨ (syncQuotes inp' s').2.dolarapi = "error")
        ∧ ((syncQuotes inp' s').2.coingecko = "ok" ∨ (syncQuotes inp' s').2.coingecko = "error")
        ∧ ((syncQuotes inp' s').2.yahoo = "ok" ∨ (syncQuotes inp' s').2.yahoo = "error")) := by
  have htne : ¬(inp.yahooAssets.filterMap (·.yahooTicker)).isEmpty = true := by
    rw [List.isEmpty_iff]
    intro hnil
    have : t1 ∈ inp.yahooAssets.filterMap (·.yahooTicker) :=
      List.mem_filterMap.mpr ⟨a1, h1, ht1⟩
    rw [hnil] at this
    cases this
  have hyp : yahooPass inp.today inp.yahooAssets inp.yahooFetch =
      (yahooQuoteRows inp.today inp.yahooAssets prices,
       yahooErrs inp.yahooAssets prices, "ok",
       yahooDetailsOf inp.yahooAssets prices) := by
    unfold yahooPass
    rw [if_neg htne, hok]
  have hurow : (⟨a2.id, inp.today, p⟩ : QuoteRow)
      ∈ yahooQuoteRows inp.today inp.yahooAssets prices := by
    apply List.mem_filterMap.mpr
    exact ⟨a2, h2, by simp [ht2, hp2, hp0]⟩
  have herr : ("Yahoo: No price for " ++ a1.ticker ++ " (" ++ t1 ++ ")")
      ∈ yahooErrs inp.yahooAssets prices := by
    apply List.mem_filterMap.mpr
    exact ⟨a1, h1, by simp [ht1, hp1]⟩
  refine ⟨?_, ?_, ?_, ?_⟩
  · show 1 ≤ (fxPass inp.today inp.fx).1.length
      + (cryptoPass inp.today inp.cryptoAssets inp.cryptoFetch).1.length
      + (yahooPass inp.today inp.yahooAssets inp.yahooFetch).1.length
    have hlen : 0 < (yahooPass inp.today inp.yahooAssets inp.yahooFetch).1.length := by
      rw [hyp]
      exact List.length_pos.mpr (List.ne_nil_of_mem hurow)
    omega
  · show _ ∈ (fxPass inp.today inp.fx).2.1
      ++ (cryptoPass inp.today inp.cryptoAssets inp.cryptoFetch).2.1
      ++ (yahooPass inp.today inp.yahooAssets inp.yahooFetch).2.1
    rw [hyp]
    exact List.mem_append.mpr (Or.inr herr)
  · show (yahooPass inp.today inp.yahooAssets inp.yahooFetch).2.2.1 = "ok"
    rw [hyp]
  · intro inp' s'
    refine ⟨?_, ?_, ?_⟩
    · show (fxPass inp'.today inp'.fx).2.2 = "ok" ∨ (fxPass inp'.today inp'.fx).2.2 = "error"
      cases inp'.fx with
      | ok rates => exact Or.inl rfl
      | error e => exact Or.inr rfl
    · show (cryptoPass inp'.today inp'.cryptoAssets inp'.cryptoFetch).2.2 = "ok"
        ∨ (cryptoPass inp'.today inp'.cryptoAssets inp'.cryptoFetch).2.2 = "error"
      unfold cryptoPass
      by_cases hje : (inp'.cryptoAssets.filterMap (·.coingeckoId)).isEmpty = true
      · rw [if_pos hje]
        exact Or.inl rfl
      · rw [if_neg hje]
        cases inp'.cryptoFetch with
        | ok prices' => exact Or.inl rfl
        | error e => exact Or.inr rfl
    · show (yahooPass inp'.today inp'.yahooAssets inp'.yahooFetch).2.2.1 = "ok"
        ∨ (yahooPass inp'.today inp'.yahooAssets inp'.yahooFetch).2.2.1 = "error"
      unfold yahooPass
      by_cases hje : (inp'.yahooAssets.filterMap (·.yahooTicker)).isEmpty = true
      · rw [if_pos hje]
        exact Or.inl rfl
      · rw [if_neg hje]
        cases inp'.yahooFetch with
        | ok prices' => exact Or.inl rfl
        | error e => exact Or.inr rfl

/-- Witness for `sync_partial_failure` at a concrete input. -/
theorem sync_partial_failure_witness :
    (syncInpEx.yahooFetch = .ok yahooPricesEx
      ∧ assetFailEx ∈ syncInpEx.yahooAssets
      ∧ assetFailEx.yahooTicker = some "AAPL.BA"
      ∧ yahooPricesEx "AAPL.BA" = none
      ∧ assetOkEx ∈ syncInpEx.yahooAssets
      ∧ assetOkEx.yahooTicker = some "GOOGL.BA"
      ∧ yahooPricesEx "GOOGL.BA" = some 350
      ∧ (350 : ℚ) ≠ 0)
    ∧ (1 ≤ (syncQuotes syncInpEx ⟨[], []⟩).2.updated
      ∧ ("Yahoo: No price for " ++ assetFailEx.ticker ++ " (" ++ "AAPL.BA" ++ ")")
          ∈ (syncQuotes syncInpEx ⟨[], []⟩).2.errors
      ∧ (syncQuotes syncInpEx ⟨[], []⟩).2.yahoo = "ok"
      ∧ (∀ (inp' : SyncInput) (s' : Store),
          ((syncQuotes inp' s').2.dolarapi = "ok" ∨ (syncQuotes inp' s').2.dolarapi = "error")
          ∧ ((syncQuotes inp' s').2.coingecko = "ok" ∨ (syncQuotes inp' s').2.coingecko = "error")
          ∧ ((syncQuotes inp' s').2.yahoo = "ok" ∨ (syncQuotes inp' s').2.yahoo = "error"))) :=
  ⟨⟨rfl, by decide, rfl, by decide, by decide, rfl, by decide, by decide⟩,
    sync_partial_failure syncInpEx ⟨[], []⟩ yahooPricesEx rfl
      assetFailEx assetOkEx "AAPL.BA" "GOOGL.BA" 350
      (by decide) rfl (by decide) (by decide) rfl (by decide) (by decide)⟩

/-! ### Equity-adapter retry policy (claim C5) -/

lemma yahoo_all_rateLimited (ticker : String) (outs : ℕ → YahooAttempt)
    (h : ∀ k, outs k = .rateLimited) :
    fetchYahooQuote ticker outs = (none, [3000 * 1, 3000 * 2, 3000 * 3]) := by
  show yahooLoop ticker 2 outs 0 3 = _
  rw [yahooLoop, h 0]
  rw [yahooLoop, h 1]
  rw [yahooLoop, h 2]
  rw [yahooLoop]

lemma yahoo_all_fetchError (ticker : String) (outs : ℕ → YahooAttempt)
    (h : ∀ k, ∃ m, outs k = .fetchError m) :
    fetchYahooQuote ticker outs = (none, [1500, 1500]) := by
  obtain ⟨m0, hm0⟩ := h 0
  obtain ⟨m1, hm1⟩ := h 1
  obtain ⟨m2, hm2⟩ := h 2
  show yahooLoop ticker 2 outs 0 3 = _
  rw [yahooLoop, hm0]
  rw [if_pos (by omega)]
  rw [yahooLoop, hm1]
  rw [if_pos (by omega)]
  rw [yahooLoop, hm2]
  rw [if_neg (by omega)]

lemma yahoo_immediate_ok (ticker : String) (outs : ℕ → YahooAttempt)
    (meta : YahooMeta) (p : ℚ) (h0 : outs 0 = .ok meta)
    (hp : yahooPriceOf meta = some p) :
    fetchYahooQuote ticker outs =
      (some ⟨ticker, p, jsOrS meta.currency "ARS",
        jsOrS meta.longName (jsOrS meta.shortName ticker)⟩, []) := by
  show yahooLoop ticker 2 outs 0 3 = _
  rw [yahooLoop, h0]
  simp only [hp]

/-- C5 (amended): a rate-limit signal retries the same ticker after an
escalating backoff of `n × 3000` ms on attempt `n`, up to 2 retries, then
gives up on that ticker only; a timed-out request is likewise retried up to
the same 2-retry cap and the ticker is skipped without aborting the batch,
but each timeout retry waits a fixed 1500 ms rather than the escalating
backoff. -/
theorem yahoo_retry_policy (ticker : String) (outs : ℕ → YahooAttempt) :
    ((∀ k, outs k = .rateLimited) →
      fetchYahooQuote ticker outs = (none, [3000 * 1, 3000 * 2, 3000 * 3]))
    ∧ ((∀ k, ∃ m, outs k = .fetchError m) →
      fetchYahooQuote ticker outs = (none, [1500, 1500]))
    ∧ (∀ (t1 t2 : String) (outsF : String → ℕ → YahooAttempt)
        (meta : YahooMeta) (p : ℚ),
        (∀ k, ∃ m, outsF t1 k = .fetchError m) →
        outsF t2 0 = .ok meta → yahooPriceOf meta = some p →
        fetchYahooQuotes [t1, t2] outsF = [(t2, p)]) := by
  refine ⟨yahoo_all_rateLimited ticker outs, yahoo_all_fetchError ticker outs, ?_⟩
  intro t1 t2 outsF meta p hfail hok hp
  show (match (fetchYahooQuote t2 (outsF t2)).1 with
    | some q => (match (fetchYahooQuote t1 (outsF t1)).1 with
        | some q1 => ([] : List (String × ℚ)) ++ [(q1.ticker, q1.price)]
        | none => []) ++ [(q.ticker, q.price)]
    | none => (match (fetchYahooQuote t1 (outsF t1)).1 with
        | some q1 => ([] : List (String × ℚ)) ++ [(q1.ticker, q1.price)]
        | none => [])) = [(t2, p)]
  rw [yahoo_all_fetchError t1 (outsF t1) hfail,
    yahoo_immediate_ok t2 (outsF t2) meta p hok hp]
  rfl

/-- An outcome stream where every attempt hits the 15 s timeout. -/
def outsTimeout : ℕ → YahooAttempt := fun _ => .fetchError "The operation was aborted"

/-- C5 counterexample: with every attempt timing out, the delay trace of the adapter is `[1500, 1500]` — the second retry wait equals the first instead of
doubling it, so timeouts are not retried under the escalating
attempt-`n`-waits-`n × base` policy the claim states. -/
theorem yahoo_timeout_backoff_counterexample :
    (fetchYahooQuote "AAPL.BA" outsTimeout).2 = [1500, 1500]
    ∧ (fetchYahooQuote "AAPL.BA" outsTimeout).2 ≠
      [(fetchYahooQuote "AAPL.BA" outsTimeout).2.headD 0,
       2 * (fetchYahooQuote "AAPL.BA" outsTimeout).2.headD 0] := by
  constructor
  · rfl
  · intro h
    rw [show (fetchYahooQuote "AAPL.BA" outsTimeout).2 = [1500, 1500] from rfl] at h
    cases h

/-- Outcomes for the retry-policy witness: t1 times out, t2 succeeds. -/
def outsFEx : String → ℕ → YahooAttempt :=
  fun t _ => if t = "GOOGL.BA" then
    .ok ⟨some 350, none, none, some "ARS", some "Alphabet", none⟩
  else .fetchError "The operation was aborted"

/-- An outcome stream where every attempt is rate-limited. -/
def outsRateLimited : ℕ → YahooAttempt := fun _ => .rateLimited

/-- The meta object of the successful ticker in the retry-policy witness. -/
def metaEx : YahooMeta := ⟨some 350, none, none, some "ARS", some "Alphabet", none⟩

/-- Witness for `yahoo_retry_policy`: each hypothesis discharged at a
concrete outcome stream. -/
theorem yahoo_retry_policy_witness :
    ((∀ k, outsRateLimited k = .rateLimited)
      ∧ fetchYahooQuote "AAPL.BA" outsRateLimited
          = (none, [3000 * 1, 3000 * 2, 3000 * 3]))
    ∧ ((∀ k, ∃ m, outsTimeout k = .fetchError m)
      ∧ fetchYahooQuote "AAPL.BA" outsTimeout = (none, [1500, 1500]))
    ∧ ((∀ k, ∃ m, outsFEx "AAPL.BA" k = .fetchError m)
      ∧ outsFEx "GOOGL.BA" 0 = .ok metaEx
      ∧ yahooPriceOf metaEx = some 350
      ∧ fetchYahooQuotes ["AAPL.BA", "GOOGL.BA"] outsFEx = [("GOOGL.BA", 350)]) :=
  ⟨⟨fun _ => rfl,
    (yahoo_retry_policy "AAPL.BA" outsRateLimited).1 (fun _ => rfl)⟩,
   ⟨fun _ => ⟨"The operation was aborted", rfl⟩,
    (yahoo_retry_policy "AAPL.BA" outsTimeout).2.1
      (fun _ => ⟨"The operation was aborted", rfl⟩)⟩,
   fun _ => ⟨"The operation was aborted", rfl⟩, rfl, rfl,
    (yahoo_retry_policy "AAPL.BA" outsTimeout).2.2 "AAPL.BA" "GOOGL.BA" outsFEx
      metaEx 350 (fun _ => ⟨"The operation was aborted", rfl⟩) rfl rfl⟩

/-! ### Zero provider prices (claim C10) -/

/-- C10: a provider price of exactly 0 is treated as absent throughout the
sync pipeline: (1) the crypto adapter omits an id whose usd price is 0 from
its result mapping; (2) the crypto loop upserts no quote row for an asset
whose fetched price is 0; (3) the equity loop upserts no quote row for such
an asset and records a "No price" error for its ticker instead; (4) yet the
equity adapter itself happily returns a quote whose price is 0. -/
theorem zero_price_treated_as_absent :
    (∀ (cids : List String) (body : String → Option ℚ) (cid : String)
        (rows : List (String × ℚ)),
        body cid = some 0 → fetchCoinGecko cids (.ok body) = .ok rows →
        ∀ pr ∈ rows, pr.1 ≠ cid)
    ∧ (∀ (today : ℕ) (cryptoAssets : List Asset) (prices : String → Option ℚ)
        (a : Asset) (cid : String),
        (cryptoAssets.map (·.id)).Nodup →
        a ∈ cryptoAssets → a.coingeckoId = some cid → prices cid = some 0 →
        ∀ r ∈ cryptoQuoteRows today cryptoAssets prices, r.assetId ≠ a.id)
    ∧ (∀ (today : ℕ) (yahooAssets : List Asset) (prices : String → Option ℚ)
        (a : Asset) (yt : String),
        (yahooAssets.map (·.id)).Nodup →
        a ∈ yahooAssets → a.yahooTicker = some yt → prices yt = some 0 →
        (∀ r ∈ yahooQuoteRows today yahooAssets prices, r.assetId ≠ a.id)
        ∧ ("Yahoo: No price for " ++ a.ticker ++ " (" ++ yt ++ ")")
            ∈ yahooErrs yahooAssets prices)
    ∧ (∀ (ticker : String) (meta : YahooMeta),
        meta.regularMarketPrice = some 0 →
        ∃ q, (fetchYahooQuote ticker (fun _ => .ok meta)).1 = some q
          ∧ q.price = 0) := by
  refine ⟨?_, ?_, ?_, ?_⟩
  · intro cids body cid rows hzero hok pr hpr
    unfold fetchCoinGecko at hok
    by_cases hce : cids.isEmpty = true
    · rw [if_pos hce] at hok
      cases hok
      cases hpr
    · rw [if_neg hce] at hok
      cases hok
      obtain ⟨cid', _, hf⟩ := List.mem_filterMap.mp hpr
      intro hfst
      rcases hp : body cid' with _ | p
      · simp only [hp] at hf
        cases hf
      · simp only [hp] at hf
        by_cases h0 : p = 0
        · rw [if_pos h0] at hf
          cases hf
        · rw [if_neg h0] at hf
          cases hf
          have hcc : cid' = cid := hfst
          rw [hcc, hzero] at hp
          cases hp
          exact h0 rfl
  · intro today cryptoAssets prices a cid hnodup ha hcid hzero r hr hid
    obtain ⟨a', ha', hf⟩ := List.mem_filterMap.mp hr
    have haid : r.assetId = a'.id := by
      revert hf
      split
      · split
        · split
          · intro hf; cases hf
          · intro hf; cases hf; rfl
        · intro hf; cases hf
      · intro hf; cases hf
    have haa : a' = a :=
      List.inj_on_of_nodup_map hnodup ha' ha (haid.symm.trans hid)
    subst haa
    simp only [hcid, hzero] at hf
    simp at hf
  · intro today yahooAssets prices a yt hnodup ha hyt hzero
    constructor
    · intro r hr hid
      obtain ⟨a', ha', hf⟩ := List.mem_filterMap.mp hr
      have haid : r.assetId = a'.id := by
        revert hf
        split
        · split
          · split
            · intro hf; cases hf
            · intro hf; cases hf; rfl
          · intro hf; cases hf
        · intro hf; cases hf
      have haa : a' = a :=
        List.inj_on_of_nodup_map hnodup ha' ha (haid.symm.trans hid)
      subst haa
      simp only [hyt, hzero] at hf
      simp at hf
    · apply List.mem_filterMap.mpr
      exact ⟨a, ha, by simp [hyt, hzero]⟩
  · intro ticker meta hmeta
    refine ⟨⟨ticker, 0, jsOrS meta.currency "ARS",
      jsOrS meta.longName (jsOrS meta.shortName ticker)⟩, ?_, rfl⟩
    have hp : yahooPriceOf meta = some 0 := by
      unfold yahooPriceOf
      rw [hmeta]
    have := yahoo_immediate_ok ticker (fun _ => .ok meta) meta 0 rfl hp
    rw [this]

/-- A stablecoin-like asset whose provider price is 0 in the C10 witness. -/
def assetZeroEx : Asset :=
  ⟨"id-z", "USDT", "Tether", "stablecoin", "USD", some "USDT.BA", some "tether"⟩

/-- A price table answering 0 for every id (C10 witness). -/
def zeroPrices : String → Option ℚ := fun _ => some 0

/-- A chart meta whose live price is exactly 0 (C10 witness). -/
def metaZeroEx : YahooMeta := ⟨some 0, none, none, some "ARS", none, none⟩

/-- Witness for `zero_price_treated_as_absent` at concrete inputs. -/
theorem zero_price_witness :
    (zeroPrices "tether" = some 0
      ∧ fetchCoinGecko ["tether"] (.ok zeroPrices) = .ok []
      ∧ (∀ pr ∈ ([] : List (String × ℚ)), pr.1 ≠ "tether"))
    ∧ (([assetZeroEx].map (·.id)).Nodup
      ∧ assetZeroEx ∈ [assetZeroEx]
      ∧ assetZeroEx.coingeckoId = some "tether"
      ∧ (∀ r ∈ cryptoQuoteRows 7 [assetZeroEx] zeroPrices, r.assetId ≠ assetZeroEx.id))
    ∧ (assetZeroEx.yahooTicker = some "USDT.BA"
      ∧ (∀ r ∈ yahooQuoteRows 7 [assetZeroEx] zeroPrices, r.assetId ≠ assetZeroEx.id)
      ∧ ("Yahoo: No price for " ++ assetZeroEx.ticker ++ " (" ++ "USDT.BA" ++ ")")
          ∈ yahooErrs [assetZeroEx] zeroPrices)
    ∧ (metaZeroEx.regularMarketPrice = some 0
      ∧ ∃ q, (fetchYahooQuote "USDT.BA" (fun _ => .ok metaZeroEx)).1 = some q
          ∧ q.price = 0) := by
  refine ⟨⟨rfl, rfl, ?_⟩, ⟨by decide, by decide, rfl, ?_⟩, ⟨rfl, ?_, ?_⟩, ⟨rfl, ?_⟩⟩
  · exact zero_price_treated_as_absent.1 ["tether"] zeroPrices "tether" [] rfl rfl
  · exact zero_price_treated_as_absent.2.1 7 [assetZeroEx] zeroPrices assetZeroEx
      "tether" (by decide) (by decide) rfl rfl
  · exact (zero_price_treated_as_absent.2.2.1 7 [assetZeroEx] zeroPrices assetZeroEx
      "USDT.BA" (by decide) (by decide) rfl rfl).1
  · exact (zero_price_treated_as_absent.2.2.1 7 [assetZeroEx] zeroPrices assetZeroEx
      "USDT.BA" (by decide) (by decide) rfl rfl).2
  · exact zero_price_treated_as_absent.2.2.2 "USDT.BA" metaZeroEx rfl

/-! ### FX-adapter fallback (claim C9) -/

/-- C9: when the primary FX provider fails — the fetch throws or the
response is non-2xx — the adapter returns exactly the data of the fallback
provider normalized to the shared `DollarRate` shape, so consumers see the same
output type either way; when the fallback also fails the adapter propagates
that error without retrying; and a successful fallback populates the same
rate-type keys (e.g. "oficial") with buy/sell pairs. -/
theorem fx_fallback (primary : Except String (HttpResp (List DolarApiEntry)))
    (fallback : Except String (HttpResp BluelyticsBody))
    (hfail : (∃ e, primary = .error e) ∨ ∃ r, primary = .ok r ∧ r.ok = false) :
    fetchDollarRates primary fallback = fetchBluelytics fallback
    ∧ (∀ e, fetchBluelytics fallback = .error e →
        fetchDollarRates primary fallback = .error e)
    ∧ (∀ r pr, fallback = .ok r → r.ok = true → r.body.oficial = some pr →
        ∃ rates, fetchDollarRates primary fallback = .ok rates
          ∧ (⟨"oficial", pr.value_buy, pr.value_sell⟩ : DollarRate) ∈ rates) := by
  have hprim : ∃ e, fetchDolarApi primary = .error e := by
    rcases hfail with ⟨e, rfl⟩ | ⟨r, rfl, hr⟩
    · exact ⟨e, rfl⟩
    · refine ⟨"DolarAPI error: " ++ toString r.status, ?_⟩
      unfold fetchDolarApi
      simp only [hr]
      rfl
  obtain ⟨e, he⟩ := hprim
  have hmain : fetchDollarRates primary fallback = fetchBluelytics fallback := by
    unfold fetchDollarRates
    rw [he]
  refine ⟨hmain, fun e' h => hmain.trans h, ?_⟩
  intro r pr hfb hok hofi
  rw [hmain]
  unfold fetchBluelytics
  rw [hfb]
  simp only [hok, hofi, if_true]
  exact ⟨_, rfl, by simp⟩

/-- Primary FX response for the C9 witness: HTTP 503. -/
def primaryFailEx : Except String (HttpResp (List DolarApiEntry)) :=
  .ok ⟨false, 503, []⟩

/-- Fallback FX response for the C9 witness. -/
def fallbackOkEx : Except String (HttpResp BluelyticsBody) :=
  .ok ⟨true, 200, ⟨some ⟨1000, 1050⟩, some ⟨1200, 1250⟩⟩⟩

/-- Witness for `fx_fallback` at concrete provider responses. -/
theorem fx_fallback_witness :
    ((∃ e, primaryFailEx = .error e)
      ∨ ∃ r, primaryFailEx = .ok r ∧ r.ok = false)
    ∧ (fetchDollarRates primaryFailEx fallbackOkEx = fetchBluelytics fallbackOkEx
      ∧ (∀ e, fetchBluelytics fallbackOkEx = .error e →
          fetchDollarRates primaryFailEx fallbackOkEx = .error e)
      ∧ (∀ r pr, fallbackOkEx = .ok r → r.ok = true → r.body.oficial = some pr →
          ∃ rates, fetchDollarRates primaryFailEx fallbackOkEx = .ok rates
            ∧ (⟨"oficial", pr.value_buy, pr.value_sell⟩ : DollarRate) ∈ rates)) :=
  ⟨Or.inr ⟨⟨false, 503, []⟩, rfl, rfl⟩,
    fx_fallback primaryFailEx fallbackOkEx (Or.inr ⟨⟨false, 503, []⟩, rfl, rfl⟩)⟩

/-! ### Portfolio valuation (`src/app/api/portfolio/route.ts`, lines 60–212) -/

/-- The latest cached quote price per asset, embedding the
`SELECT DISTINCT ON (asset_id) … ORDER BY asset_id, date DESC` lookup. -/
def latestQuotePrice (qs : List QuoteRow) (aid : String) : Option ℚ :=
  (maxByDate (·.date) (qs.filter (fun q => q.assetId = aid))).map (·.price)

/-- One entry of the `holdings` array of the response (interface `Holding`). -/
structure Holding where
  ticker : String
  name : String
  type : String
  currency : String
  quantity : ℚ
  avgPrice : ℚ
  currentPrice : ℚ
  currentValue : ℚ
  costBasis : ℚ
  valueUsd : ℚ
  returnPct : ℚ
  returnAbs : ℚ
deriving DecidableEq

/-- The per-holding computation of the response loop (lines 139–180). -/
def buildHolding (qs : List QuoteRow) (oficial : ℚ) (a : Asset)
    (g : HoldingAgg) : Holding :=
  let avgPrice := avgPriceOf g.totalBought g.totalCost
  let currentPrice := (latestQuotePrice qs g.assetId).getD avgPrice
  let currentValue := g.quantity * currentPrice
  let costBasis := g.quantity * avgPrice
  let valueUsd := if a.currency = "ARS" then currentValue / oficial else currentValue
  let returnPct := if 0 < avgPrice then (currentPrice - avgPrice) / avgPrice * 100 else 0
  let returnAbs := (currentPrice - avgPrice) * g.quantity
  ⟨a.ticker, a.name, a.type, a.currency, g.quantity, avgPrice, currentPrice,
   currentValue, costBasis, valueUsd, returnPct, returnAbs⟩

/-- The per-holding `costUsd` added into `totalCostUsd` (lines 153–160). -/
def holdingCostUsd (oficial : ℚ) (a : Asset) (g : HoldingAgg) : ℚ :=
  let costBasis := g.quantity * avgPriceOf g.totalBought g.totalCost
  if a.currency = "ARS" then costBasis / oficial else costBasis

/-- The comparator of `result.sort((a, b) => b.valueUsd - a.valueUsd)`: descending by USD
value; the sort of the engine is stable. -/
def valueUsdDesc (a b : Holding) : Prop := b.valueUsd ≤ a.valueUsd

instance : DecidableRel valueUsdDesc :=
  fun a b => inferInstanceAs (Decidable (b.valueUsd ≤ a.valueUsd))

instance : IsTotal Holding valueUsdDesc := ⟨fun a b => le_total b.valueUsd a.valueUsd⟩

instance : IsTrans Holding valueUsdDesc := ⟨fun _ _ _ h1 h2 => le_trans h2 h1⟩

/-- The response body of the portfolio GET. -/
structure PortfolioSummary where
  totalValueUsd : ℚ
  totalCostUsd : ℚ
  totalReturnAbs : ℚ
  totalReturnPct : ℚ
  totalValueArs : ℚ
  totalCostArs : ℚ
  totalReturnAbsArs : ℚ
  dollarOficial : ℚ
  dollarMep : ℚ
  dollarBlue : ℚ
  holdings : List Holding
deriving DecidableEq

/-- The explicit zero-valued summary of the early return (lines 61–74). -/
def zeroSummary : PortfolioSummary := ⟨0, 0, 0, 0, 0, 0, 0, 1, 1, 1, []⟩

/-- The whole portfolio GET: aggregate holdings, early-return the zero
summary when none qualify, otherwise price, convert and sort them. -/
def portfolioResponse (txs : List Txn) (assetList : List Asset)
    (qs : List QuoteRow) (fxRows : List FxRow) : PortfolioSummary :=
  let hs := holdingsAgg txs
  if hs.isEmpty then zeroSummary
  else
    let oficial := dollarOficialOf fxRows
    let pairs := hs.filterMap (fun g =>
      (assetList.find? (fun a => a.id = g.assetId)).map (fun a => (a, g)))
    let result := pairs.map (fun ag => buildHolding qs oficial ag.1 ag.2)
    let totalValueUsd := (result.map (·.valueUsd)).sum
    let totalCostUsd := (pairs.map (fun ag => holdingCostUsd oficial ag.1 ag.2)).sum
    let totalReturnAbs := totalValueUsd - totalCostUsd
    ⟨totalValueUsd, totalCostUsd, totalReturnAbs,
     if 0 < totalCostUsd then (totalValueUsd - totalCostUsd) / totalCostUsd * 100 else 0,
     totalValueUsd * oficial, totalCostUsd * oficial, totalReturnAbs * oficial,
     oficial, dollarMepOf fxRows, dollarBlueOf fxRows,
     List.insertionSort valueUsdDesc result⟩

/-- C8: a user whose transaction history yields no strictly-positive net
position — including one whose positions all net to zero — receives the
explicit zero-valued summary (all totals 0, empty holdings, rate 1 for all
three dollar rates), not an error. -/
theorem zero_holdings_summary (txs : List Txn) (assetList : List Asset)
    (qs : List QuoteRow) (fxRows : List FxRow)
    (h : ∀ aid, netQuantity txs aid ≤ 0) :
    portfolioResponse txs assetList qs fxRows = zeroSummary := by
  have hempty : holdingsAgg txs = [] := by
    unfold holdingsAgg
    apply List.filterMap_eq_nil_iff.mpr
    intro aid _
    rw [if_neg (not_lt.mpr (h aid))]
  unfold portfolioResponse
  rw [hempty]
  rfl

/-- A buy fully matched by a later sell (C8 witness). -/
def txsZeroEx : List Txn :=
  [⟨"asset-x", "buy", 10, 100, 0⟩, ⟨"asset-x", "sell", 10, 150, 0⟩]

/-- Witness for `zero_holdings_summary`: a profitable round trip still nets
to zero and yields the zero summary. -/
theorem zero_holdings_witness :
    (∀ aid, netQuantity txsZeroEx aid ≤ 0)
    ∧ portfolioResponse txsZeroEx [] [] [] = zeroSummary := by
  have h : ∀ aid, netQuantity txsZeroEx aid ≤ 0 := by
    intro aid
    by_cases ha : ("asset-x" : String) = aid
    · subst ha
      norm_num [netQuantity, txsZeroEx]
      rw [if_neg (by decide : ¬("sell" = "buy"))]
      norm_num
    · have hnil : txsZeroEx.filter (fun t => t.assetId = aid) = [] := by
        apply List.filter_eq_nil_iff.mpr
        intro t ht
        have hx : t.assetId = "asset-x" := by
          rcases List.mem_cons.mp ht with rfl | ht2
          · rfl
          · rcases List.mem_cons.mp ht2 with rfl | ht3
            · rfl
            · cases ht3
        simp only [hx, decide_eq_true_eq]
        exact ha
      unfold netQuantity
      rw [hnil]
      simp
  exact ⟨h, zero_holdings_summary txsZeroEx [] [] [] h⟩

lemma holdingsAgg_mem (txs : List Txn) (g : HoldingAgg) (hg : g ∈ holdingsAgg txs) :
    0 < netQuantity txs g.assetId ∧ g.quantity = netQuantity txs g.assetId
      ∧ g.totalBought = totalBought txs g.assetId
      ∧ g.totalCost = totalCostOfBuys txs g.assetId := by
  obtain ⟨aid, _, hf⟩ := List.mem_filterMap.mp hg
  by_cases hpos : 0 < netQuantity txs aid
  · rw [if_pos hpos] at hf
    cases hf
    exact ⟨hpos, rfl, rfl, rfl⟩
  · rw [if_neg hpos] at hf
    cases hf

/-- C7: every holding of the portfolio response belongs to a net-positive
asset whose `currentPrice` is the price of a most-recent stored quote for
that asset; when the asset has no stored quote, `currentPrice` falls back to
`avgPrice`, making `returnPct` and `returnAbs` both 0 rather than
undefined. -/
theorem current_price_latest_quote (txs : List Txn) (assetList : List Asset)
    (qs : List QuoteRow) (fxRows : List FxRow) (hld : Holding)
    (hmem : hld ∈ (portfolioResponse txs assetList qs fxRows).holdings) :
    ∃ aid, 0 < netQuantity txs aid ∧ hld.quantity = netQuantity txs aid
      ∧ ((∃ q ∈ qs, q.assetId = aid) →
          ∃ q ∈ qs, q.assetId = aid
            ∧ (∀ q' ∈ qs, q'.assetId = aid → q'.date ≤ q.date)
            ∧ hld.currentPrice = q.price)
      ∧ ((∀ q ∈ qs, q.assetId ≠ aid) →
          hld.currentPrice = hld.avgPrice ∧ hld.returnPct = 0 ∧ hld.returnAbs = 0) := by
  unfold portfolioResponse at hmem
  by_cases hni : (holdingsAgg txs).isEmpty = true
  · rw [if_pos hni] at hmem
    cases hmem
  · rw [if_neg hni] at hmem
    have hmem2 : hld ∈ List.insertionSort valueUsdDesc
        (((holdingsAgg txs).filterMap (fun g =>
          (assetList.find? (fun a => a.id = g.assetId)).map (fun a => (a, g)))).map
          (fun ag => buildHolding qs (dollarOficialOf fxRows) ag.1 ag.2)) := hmem
    have hmem3 := (List.perm_insertionSort valueUsdDesc _).mem_iff.mp hmem2
    obtain ⟨ag, hag, rfl⟩ := List.mem_map.mp hmem3
    obtain ⟨g, hg, hmapped⟩ := List.mem_filterMap.mp hag
    obtain ⟨a, hfind, rfl⟩ := Option.map_eq_some'.mp hmapped
    obtain ⟨hpos, hqty, _, _⟩ := holdingsAgg_mem txs g hg
    refine ⟨g.assetId, hpos, hqty, ?_, ?_⟩
    · rintro ⟨q0, hq0, hq0a⟩
      have hfilter_ne : qs.filter (fun q => q.assetId = g.assetId) ≠ [] := by
        intro hnil
        have hq0f : q0 ∈ qs.filter (fun q => q.assetId = g.assetId) :=
          List.mem_filter.mpr ⟨hq0, by simpa using hq0a⟩
        rw [hnil] at hq0f
        cases hq0f
      rcases maxByDate_spec (fun q : QuoteRow => q.date)
          (qs.filter (fun q => q.assetId = g.assetId)) with
        ⟨hnil, _⟩ | ⟨m, hm, hmmem, hmmax⟩
      · exact absurd hnil hfilter_ne
      · refine ⟨m, (List.mem_filter.mp hmmem).1,
          by simpa using (List.mem_filter.mp hmmem).2, ?_, ?_⟩
        · intro q' hq' hq'a
          exact hmmax q' (List.mem_filter.mpr ⟨hq', by simpa using hq'a⟩)
        · show (latestQuotePrice qs g.assetId).getD
              (avgPriceOf g.totalBought g.totalCost) = m.price
          unfold latestQuotePrice
          rw [hm]
          rfl
    · intro hno
      have hnil : qs.filter (fun q => q.assetId = g.assetId) = [] := by
        apply List.filter_eq_nil_iff.mpr
        intro q hq
        simpa using hno q hq
      have hlq : latestQuotePrice qs g.assetId = none := by
        unfold latestQuotePrice
        rw [hnil]
        rfl
      refine ⟨?_, ?_, ?_⟩
      · show (latestQuotePrice qs g.assetId).getD (avgPriceOf g.totalBought g.totalCost)
            = avgPriceOf g.totalBought g.totalCost
        rw [hlq]
        rfl
      · show (if 0 < avgPriceOf g.totalBought g.totalCost then
              ((latestQuotePrice qs g.assetId).getD (avgPriceOf g.totalBought g.totalCost)
                - avgPriceOf g.totalBought g.totalCost)
                / avgPriceOf g.totalBought g.totalCost * 100
            else 0) = 0
        rw [hlq]
        by_cases hap : 0 < avgPriceOf g.totalBought g.totalCost
        · rw [if_pos hap]
          simp
        · rw [if_neg hap]
      · show ((latestQuotePrice qs g.assetId).getD (avgPriceOf g.totalBought g.totalCost)
            - avgPriceOf g.totalBought g.totalCost) * g.quantity = 0
        rw [hlq]
        simp

/-- The asset of the C7 witness. -/
def assetXEx : Asset := ⟨"asset-x", "X", "X corp", "stock", "USD", none, none⟩

/-- The cached quote of the C7 witness. -/
def quoteXEx : QuoteRow := ⟨"asset-x", 3, 180⟩

/-- The holding the portfolio response produces for `txsEx` (avg price 150,
current price 180). -/
def holdingXEx : Holding :=
  buildHolding [quoteXEx] 1 assetXEx ⟨"asset-x", 20, 20, 3000⟩

lemma holdingsAgg_txsEx : holdingsAgg txsEx = [⟨"asset-x", 20, 20, 3000⟩] := by
  have hnet : netQuantity txsEx "asset-x" = 20 := by
    norm_num [netQuantity, txsEx]
  have htb : totalBought txsEx "asset-x" = 20 := by
    norm_num [totalBought, txsEx]
  have htc : totalCostOfBuys txsEx "asset-x" = 3000 := by
    norm_num [totalCostOfBuys, txsEx]
  unfold holdingsAgg
  rw [show (txsEx.map (·.assetId)).dedup = ["asset-x"] from rfl]
  rw [List.filterMap_cons]
  simp only [hnet, htb, htc]
  norm_num

lemma portfolioResponse_txsEx :
    (portfolioResponse txsEx [assetXEx] [quoteXEx] []).holdings = [holdingXEx] := by
  unfold portfolioResponse
  rw [holdingsAgg_txsEx]
  rfl

/-- Witness for `current_price_latest_quote` at a concrete portfolio. -/
theorem current_price_witness :
    holdingXEx ∈ (portfolioResponse txsEx [assetXEx] [quoteXEx] []).holdings
    ∧ ∃ aid, 0 < netQuantity txsEx aid ∧ holdingXEx.quantity = netQuantity txsEx aid
      ∧ ((∃ q ∈ [quoteXEx], q.assetId = aid) →
          ∃ q ∈ [quoteXEx], q.assetId = aid
            ∧ (∀ q' ∈ [quoteXEx], q'.assetId = aid → q'.date ≤ q.date)
            ∧ holdingXEx.currentPrice = q.price)
      ∧ ((∀ q ∈ [quoteXEx], q.assetId ≠ aid) →
          holdingXEx.currentPrice = holdingXEx.avgPrice
          ∧ holdingXEx.returnPct = 0 ∧ holdingXEx.returnAbs = 0) :=
  ⟨by rw [portfolioResponse_txsEx]; exact List.mem_singleton_self _,
    current_price_latest_quote txsEx [assetXEx] [quoteXEx] [] holdingXEx
      (by rw [portfolioResponse_txsEx]; exact List.mem_singleton_self _)⟩

end InvTracker
